import Mathlib

/-! cosmos-firewall: the start command (cmd/start.go)

A shallow embedding of `start`, `Run`, `ListenForQuitSignals`, `RunGRPCServer`,
`RunRESTServer` and `RunJSONRPCServer`.

The sequential parts (`start`, the node construction at the head of `Run`) are
plain functions over the results of the external calls they make.  The
concurrent part (three listener goroutines under one errgroup, their server
goroutines, their health-check goroutines and the signal goroutine) is an
interleaving transition system: a state, a step function indexed by the event
that happens next, and `exec`, which runs a schedule (a list of events; an
event that is not enabled in the current state does not happen).  Results of
external calls (net.Listen, ListenAndServe, closing a listener) are carried by
the events.

Library behaviour the embedding relies on:
* errgroup: the group context is cancelled when a function passed to `Go`
  first returns a non-nil error, or when `Wait` returns; `Wait` returns the
  first non-nil error once every function has returned.
* select: a case can be taken only when it is ready; when both are ready
  either may be taken.
* net/http: `ListenAndServe` always returns a non-nil error; `Shutdown(ctx)`
  closes the listeners and the idle connections, returns the listener error
  when no connection is left, and otherwise waits until none is left or ctx
  is done, returning `ctx.Err()` in the latter case.  A connection with a
  request in flight is not idle, and neither is one opened less than 5
  seconds ago that has sent no request yet.
* grpc: `Serve` returns a non-nil error unless `Stop` was called; `Stop` closes
  listeners and connections at once.
* time: `NewTicker(d)` panics when `d <= 0`; a panic in a goroutine ends the
  process.
-/

namespace CosmosFirewall

/-! ## Values -/

/-- Non-nil Go `error` values.  `canceled` is `context.Canceled` (what `ctx.Err()` is
after a cancel); `code n` is any other error.  A Go `error` is `Option Err`, `none` being nil. -/
inductive Err
  | canceled
  | code (n : Nat)
  deriving DecidableEq, Repr

/-- The three protocol families served by the firewall. -/
inductive Family
  | jsonrpc
  | rest
  | grpc
  deriving DecidableEq, Repr

/-- A `*node.Node` value: only the field read by cmd/start.go is kept, together with an
identity that tells the node sets apart. -/
structure Node where
  id : Nat
  CheckNodeSecond : Int
  deriving DecidableEq, Repr

/-! ## time.Duration arithmetic (int64 nanoseconds) -/

/-- Conversion of an integer to int64 (two's complement wrap-around). -/
def toInt64 (x : Int) : Int := (x + 2 ^ 63) % 2 ^ 64 - 2 ^ 63

/-- The constant `time.Second`, in nanoseconds. -/
def Second : Int := 1000000000

/-- The expression `time.Duration(node.CheckNodeSecond) * time.Second`. -/
def tickerPeriod (checkNodeSecond : Int) : Int :=
  toInt64 (toInt64 checkNodeSecond * Second)

/-- The call `time.NewTicker(d)`: panics (`none`) when `d <= 0`, otherwise a ticker of period `d`. -/
def NewTicker (d : Int) : Option Int :=
  if d ≤ 0 then none else some d

/-! ## The health-check goroutine

```go
go func() {
    node.CheckNode()
    ticker := time.NewTicker(time.Duration(node.CheckNodeSecond) * time.Second)
    for range ticker.C {
        node.CheckNode()
    }
}()
```
-/

/-- Program points of the health-check goroutine. -/
inductive HPc
  | first      -- started; the first node.CheckNode() has not returned yet
  | mkTicker   -- first pass done; about to call time.NewTicker
  | waitTick   -- blocked receiving from ticker.C
  | gotTick    -- a tick was received; node.CheckNode() of the loop body pending
  | panicked   -- time.NewTicker panicked
  deriving DecidableEq, Repr

/-- What the health-check goroutine has done, in order. -/
inductive HAct
  | CheckNode
  | NewTicker (d : Int)
  | tick
  deriving DecidableEq, Repr

/-- Events of the health-check goroutine. -/
inductive HEv
  | check       -- the pending node.CheckNode() call runs and returns
  | newTicker   -- time.NewTicker(...) is called
  | tick        -- a tick is received from ticker.C
  deriving DecidableEq, Repr

/-- State of one health-check goroutine. -/
structure Health where
  node : Node
  pc : HPc
  trace : List HAct
  deriving DecidableEq, Repr

/-- The goroutine as created by the `go` statement. -/
def Health.spawn (n : Node) : Health := { node := n, pc := .first, trace := [] }

/-- One step of the health-check goroutine. -/
def healthStep (h : Health) : HEv → Option Health
  | .check =>
    match h.pc with
    | .first => some { h with pc := .mkTicker, trace := h.trace ++ [.CheckNode] }
    | .gotTick => some { h with pc := .waitTick, trace := h.trace ++ [.CheckNode] }
    | _ => none
  | .newTicker =>
    match h.pc with
    | .mkTicker =>
      match NewTicker (tickerPeriod h.node.CheckNodeSecond) with
      | some d => some { h with pc := .waitTick, trace := h.trace ++ [.NewTicker d] }
      | none => some { h with pc := .panicked }
    | _ => none
  | .tick =>
    match h.pc with
    | .waitTick => some { h with pc := .gotTick, trace := h.trace ++ [.tick] }
    | _ => none

/-- Run the health-check goroutine through a list of events (events that are not
enabled do not happen). -/
def healthExec (h : Health) (evs : List HEv) : Health :=
  evs.foldl (fun h e => (healthStep h e).getD h) h

/-- The full sequence of a health-check goroutine that has received `n` ticks and
handled them all: the immediate pass, the ticker, then one pass per tick. -/
def healthPattern (d : Int) : Nat → List HAct
  | 0 => [.CheckNode, .NewTicker d]
  | n + 1 => healthPattern d n ++ [.tick, .CheckNode]

/-- The schedule in which `n` ticks arrive and each is handled. -/
def healthSchedule : Nat → List HEv
  | 0 => [.check, .newTicker]
  | n + 1 => healthSchedule n ++ [.tick, .check]

/-! ## The listener goroutines -/

/-- The two methods of `middleware.NewRedirect(node)` used as directors. -/
inductive DirectorKind
  | StreamDirector
  | HttpDirector
  deriving DecidableEq, Repr

/-- A non-nil `middleware.Director`: the method value and the node set it was built from. -/
structure Director where
  kind : DirectorKind
  node : Node
  deriving DecidableEq, Repr

/-- What a listener goroutine has done, in order. -/
inductive Act
  | logStart                           -- logger.Infof("start ... server listening on %v", ...)
  | goHealth (n : Node)                -- go func() { node.CheckNode(); ... }()
  | newServer (d : Option Director)    -- grpc.NewServer(...) / &http.Server{...}, handler built with director
  | netListen (r : Option Err)         -- net.Listen("tcp", ...) returned r
  | goServe                            -- go func() { errCh <- ...Serve...() }()
  | logStopping                        -- logger.Info("stopping ... server...", ...)
  | Stop                               -- grpcSrv.Stop()
  | GracefulStop                       -- grpcSrv.GracefulStop(), which the source never calls
  | Shutdown (ctxDone : Bool) (active : Nat)  -- srv.Shutdown(ctx): whether ctx is done and how many
                                       -- connections are not idle at the call
  | logFailed                          -- logger.Error("failed to start ... server", ...)
  | ret (r : Option Err)               -- return r
  deriving DecidableEq, Repr

/-- Program points of a listener goroutine. -/
inductive Pc
  | start                  -- created by g.Go, body not entered yet
  | listen                 -- RunGRPCServer only: about to call net.Listen
  | select                 -- blocked in the select on ctx.Done() and errCh
  | done (r : Option Err)  -- returned r
  deriving DecidableEq, Repr

/-- State of the server goroutine `go func() { errCh <- ... }()` of a listener. -/
inductive Server
  | idle                -- not launched
  | starting            -- srv.ListenAndServe() called, address not bound yet
  | serving             -- bound and accepting
  | returned (e : Err)  -- Serve / ListenAndServe returned e; blocked sending e on errCh
  | closed              -- stopped by Stop / Shutdown, or its error was received
  deriving DecidableEq, Repr

/-- State of one listener: its goroutine, its server goroutine, its connections and
its health-check goroutine. -/
structure Listener where
  pc : Pc
  server : Server
  bindFailed : Bool             -- the listen address could not be bound
  active : Nat                  -- connections that are not idle: a request in flight, or
                                -- opened less than 5 seconds ago with no request read yet
  accepted : Nat                -- requests accepted so far
  director : Option Director    -- the local variable director
  health : Option Health        -- the health-check goroutine, once started
  trace : List Act
  deriving DecidableEq, Repr

/-- A listener whose goroutine has been created by g.Go and has not run yet. -/
def Listener.init : Listener :=
  { pc := .start, server := .idle, bindFailed := false, active := 0, accepted := 0,
    director := none, health := none, trace := [] }

/-- Steps of a listener goroutine. -/
inductive TaskEv
  | begin                           -- run from the entry up to the first blocking call
  | listen (r : Option Err)         -- net.Listen returns r (gRPC)
  | selectDone (lnerr : Option Err) -- select takes case <-ctx.Done(); lnerr: result of closing the listener
  | selectErr                       -- select takes case err := <-errCh
  deriving DecidableEq, Repr

/-- The call `http.Server.Shutdown(ctx)` (net/http): listeners are closed (result `lnerr`),
idle connections are closed (closeIdleConns); `active` counts the connections that are
not idle for it: those with a request in flight and those opened less than 5 seconds
ago that have sent no request yet. If there is none it returns `lnerr`; otherwise it
polls until there is none or ctx is done, in which case it returns `ctx.Err()`.
`none`: the call does not return yet. -/
def Shutdown (ctxDone : Bool) (active : Nat) (lnerr : Option Err) : Option (Option Err) :=
  if active = 0 then some lnerr
  else if ctxDone then some (some Err.canceled)
  else none

/-- The statements `var director ...; if node != nil { go func() {...}(); director = ... }`
shared by the three listeners: new health goroutine, director, and actions done. -/
def setupNode (kind : DirectorKind) (node : Option Node) :
    Option Health × Option Director × List Act :=
  match node with
  | some n => (some (Health.spawn n), some ⟨kind, n⟩, [.goHealth n])
  | none => (none, none, [])

/-- Steps of `RunGRPCServer(ctx, validator, node)`; `ctxDone` is the state of ctx. -/
def RunGRPCServer (ctxDone : Bool) (node : Option Node) (l : Listener) : TaskEv → Option Listener
  | .begin =>
    match l.pc with
    | .start =>
      let (h, d, acts) := setupNode .StreamDirector node
      some { l with pc := .listen, health := h, director := d,
                    trace := l.trace ++ [.logStart] ++ acts ++ [.newServer d] }
    | _ => none
  | .listen r =>
    match l.pc with
    | .listen =>
      match r with
      | some e =>
        some { l with pc := .done (some e), bindFailed := true,
                      trace := l.trace ++ [.netListen (some e), .ret (some e)] }
      | none =>
        some { l with pc := .select, server := .serving,
                      trace := l.trace ++ [.netListen none, .goServe] }
    | _ => none
  | .selectDone _ =>
    match l.pc with
    | .select =>
      if ctxDone then
        some { l with pc := .done none, server := .closed, active := 0,
                      trace := l.trace ++ [.logStopping, .Stop, .ret none] }
      else none
    | _ => none
  | .selectErr =>
    match l.pc, l.server with
    | .select, .returned e =>
      some { l with pc := .done (some e), server := .closed,
                    trace := l.trace ++ [.logFailed, .ret (some e)] }
    | _, _ => none

/-- Steps common to `RunRESTServer` and `RunJSONRPCServer`, which differ only in the
address, the handler constructor and the log texts. -/
def runHTTPServer (ctxDone : Bool) (node : Option Node) (l : Listener) : TaskEv → Option Listener
  | .begin =>
    match l.pc with
    | .start =>
      let (h, d, acts) := setupNode .HttpDirector node
      some { l with pc := .select, server := .starting, health := h, director := d,
                    trace := l.trace ++ [.logStart] ++ acts ++ [.newServer d, .goServe] }
    | _ => none
  | .listen _ => none
  | .selectDone lnerr =>
    match l.pc with
    | .select =>
      if ctxDone then
        match Shutdown ctxDone l.active (if l.server = .serving then lnerr else none) with
        | some r =>
          some { l with pc := .done r, server := .closed,
                        trace := l.trace ++ [.logStopping, .Shutdown ctxDone l.active, .ret r] }
        | none => none
      else none
    | _ => none
  | .selectErr =>
    match l.pc, l.server with
    | .select, .returned e =>
      some { l with pc := .done (some e), server := .closed,
                    trace := l.trace ++ [.logFailed, .ret (some e)] }
    | _, _ => none

/-- Steps of `RunRESTServer(ctx, validator, node)`. -/
def RunRESTServer (ctxDone : Bool) (node : Option Node) (l : Listener) : TaskEv → Option Listener :=
  runHTTPServer ctxDone node l

/-- Steps of `RunJSONRPCServer(ctx, validator, node)`. -/
def RunJSONRPCServer (ctxDone : Bool) (node : Option Node) (l : Listener) : TaskEv → Option Listener :=
  runHTTPServer ctxDone node l

/-- What happens inside a listener outside its own goroutine. -/
inductive SrvEv
  | bind (r : Option Err)   -- ListenAndServe binds its address (r = nil) or fails with r
  | serveFail (e : Err)     -- a serving server fails: Serve / ListenAndServe returns e
  | connect                 -- a connection is opened; no request read on it yet
  | accept                  -- a request is accepted, on an idle connection or one opened with it
  | first                   -- the first request of a connection opened earlier is accepted
  | finish                  -- a connection stops being not idle: its request completes, or it
                            -- sent none and is closed or turns 5 seconds old
  deriving DecidableEq, Repr

/-- Steps of the server goroutine and of its connections. -/
def serverStep (l : Listener) : SrvEv → Option Listener
  | .bind r =>
    match l.server with
    | .starting =>
      match r with
      | none => some { l with server := .serving }
      | some e => some { l with server := .returned e, bindFailed := true }
    | _ => none
  | .serveFail e =>
    match l.server with
    | .serving => some { l with server := .returned e }
    | _ => none
  | .connect =>
    match l.server with
    | .serving => some { l with active := l.active + 1 }
    | _ => none
  | .accept =>
    match l.server with
    | .serving => some { l with active := l.active + 1, accepted := l.accepted + 1 }
    | _ => none
  | .first =>
    if 0 < l.active then some { l with accepted := l.accepted + 1 } else none
  | .finish =>
    if 0 < l.active then some { l with active := l.active - 1 } else none

/-! ## Run: the errgroup and the schedule -/

/-- State of the concurrent part of `Run`. -/
structure State where
  ctxDone : Bool                  -- the context made by errgroup.WithContext is done
  groupErr : Option Err           -- the error kept by the errgroup (first non-nil one)
  returned : Option (Option Err)  -- the value g.Wait() gave, once Run has returned
  crashed : Bool                  -- a goroutine panicked: the process is gone
  nodes : Family → Option Node    -- jsonrpcNodes, restNodes, grpcNodes
  l : Family → Listener

/-- Events of the concurrent part of `Run`. -/
inductive Ev
  | signal                          -- SIGINT / SIGTERM received by ListenForQuitSignals
  | task (L : Family) (t : TaskEv)   -- listener goroutine L takes a step
  | server (L : Family) (e : SrvEv)  -- server goroutine / connections of L
  | health (L : Family) (h : HEv)    -- health-check goroutine of L takes a step
  | wait                            -- g.Wait() returns
  deriving DecidableEq, Repr

/-- The function run by each of the three `g.Go(func() error { return Run...Server(...) })`. -/
def taskOf : Family → Bool → Option Node → Listener → TaskEv → Option Listener
  | .jsonrpc => RunJSONRPCServer
  | .rest => RunRESTServer
  | .grpc => RunGRPCServer

/-- The errgroup wrapper around a task that returned `r`: the first non-nil error is
kept and the group context is cancelled. -/
def groupReturn (s : State) (r : Option Err) : State :=
  match r with
  | none => s
  | some e =>
    { s with groupErr := (match s.groupErr with | none => some e | some e0 => some e0),
             ctxDone := true }

/-- `ListenForQuitSignals(cancelFn)`: on the signal the goroutine calls cancelFn, which
cancels the parent context and with it the group context. -/
def ListenForQuitSignals (s : State) : State := { s with ctxDone := true }

/-- Whether listener goroutine `L` has returned. -/
def isDone (s : State) (L : Family) : Bool :=
  match (s.l L).pc with
  | .done _ => true
  | _ => false

/-- One step of the system.  `none`: the event is not enabled. -/
def step (s : State) (ev : Ev) : Option State :=
  if s.crashed || s.returned.isSome then none
  else
    match ev with
    | .signal => some (ListenForQuitSignals s)
    | .task L t =>
      match taskOf L s.ctxDone (s.nodes L) (s.l L) t with
      | none => none
      | some l' =>
        let s' := { s with l := Function.update s.l L l' }
        match l'.pc with
        | .done r => some (groupReturn s' r)
        | _ => some s'
    | .server L e =>
      match serverStep (s.l L) e with
      | none => none
      | some l' => some { s with l := Function.update s.l L l' }
    | .health L h =>
      match (s.l L).health with
      | none => none
      | some hs =>
        match healthStep hs h with
        | none => none
        | some hs' =>
          some { s with l := Function.update s.l L { s.l L with health := some hs' },
                        crashed := decide (hs'.pc = .panicked) }
    | .wait =>
      if isDone s .jsonrpc && isDone s .rest && isDone s .grpc then
        some { s with returned := some s.groupErr, ctxDone := true }
      else none

/-- Run a schedule: events happen in order; one that is not enabled does not happen. -/
def exec (s : State) (evs : List Ev) : State :=
  evs.foldl (fun s ev => (step s ev).getD s) s

/-- The state right after the three `g.Go` calls of `Run`. -/
def RunInit (nodes : Family → Option Node) : State :=
  { ctxDone := false, groupErr := none, returned := none, crashed := false,
    nodes := nodes, l := fun _ => Listener.init }

/-- Calls made by `start` and by `Run` itself, in order. -/
inductive Call
  | ReadInConfig
  | DefaultConfig
  | Unmarshal
  | ValidateBasic
  | Run
  | NewJSONRPCNode
  | NewGRPCNode
  | NewRESTNode
  | NewValidator
  | WithCancel
  | WithContext
  | ListenForQuitSignals
  | Go (L : Family)
  | Wait
  deriving DecidableEq, Repr

/-- What `Run` reads from its configuration and the results of the three node
constructors (a `*node.Node`, nil being `none`, and an error). -/
structure RunEnv where
  enable : Bool   -- config.Redirect.Enable
  NewJSONRPCNode : Option Node × Option Err
  NewGRPCNode : Option Node × Option Err
  NewRESTNode : Option Node × Option Err

/-- Lines 65-82 of `Run`: the node sets, or the error returned, with the calls made. -/
def RunNodes (cfg : RunEnv) : List Call × Except Err (Family → Option Node) :=
  if cfg.enable then
    match cfg.NewJSONRPCNode with
    | (_, some e) => ([.NewJSONRPCNode], .error e)
    | (jsonrpcNodes, none) =>
      match cfg.NewGRPCNode with
      | (_, some e) => ([.NewJSONRPCNode, .NewGRPCNode], .error e)
      | (grpcNodes, none) =>
        match cfg.NewRESTNode with
        | (_, some e) => ([.NewJSONRPCNode, .NewGRPCNode, .NewRESTNode], .error e)
        | (restNodes, none) =>
          ([.NewJSONRPCNode, .NewGRPCNode, .NewRESTNode],
            .ok (fun L => match L with
              | .jsonrpc => jsonrpcNodes
              | .rest => restNodes
              | .grpc => grpcNodes))
  else ([], .ok (fun _ => none))

/-- Result of `Run` under a schedule. -/
structure Outcome where
  calls : List Call               -- calls made by Run itself, in order
  state : Option State            -- state of the concurrent part, if Run got that far
  ret : Option (Option Err)       -- the value returned; none: Run has not returned

/-- `Run(config)` under the schedule `evs`. -/
def Run (cfg : RunEnv) (evs : List Ev) : Outcome :=
  match RunNodes cfg with
  | (calls, .error e) => { calls := calls, state := none, ret := some (some e) }
  | (calls, .ok nodes) =>
    let s := exec (RunInit nodes) evs
    { calls := calls ++ [.NewValidator, .WithCancel, .WithContext, .ListenForQuitSignals,
                         .Go .jsonrpc, .Go .rest, .Go .grpc, .Wait],
      state := some s, ret := s.returned }

/-- Results of the three fallible calls made by the `start` command before `Run`. -/
structure StartEnv where
  ReadInConfig : Option Err
  Unmarshal : Option Err
  ValidateBasic : Option Err

/-- The `RunE` function of the `start` command: the calls made and the value returned. -/
def start (c : StartEnv) (cfg : RunEnv) (evs : List Ev) : List Call × Option (Option Err) :=
  match c.ReadInConfig with
  | some e => ([.ReadInConfig], some (some e))
  | none =>
    match c.Unmarshal with
    | some e => ([.ReadInConfig, .DefaultConfig, .Unmarshal], some (some e))
    | none =>
      match c.ValidateBasic with
      | some e => ([.ReadInConfig, .DefaultConfig, .Unmarshal, .ValidateBasic], some (some e))
      | none =>
        let o := Run cfg evs
        ([.ReadInConfig, .DefaultConfig, .Unmarshal, .ValidateBasic, .Run] ++ o.calls, o.ret)

/-! ## Invariants and schedules used by the proofs -/

/-- Invariant of the health-check goroutine: its trace is determined by its program point. -/
def HealthInv (n : Node) (h : Health) : Prop :=
  h.node = n ∧
  match h.pc with
  | .first => h.trace = []
  | .mkTicker => h.trace = [.CheckNode]
  | .waitTick => 0 < tickerPeriod n.CheckNodeSecond ∧
      ∃ k, h.trace = healthPattern (tickerPeriod n.CheckNodeSecond) k
  | .gotTick => 0 < tickerPeriod n.CheckNodeSecond ∧
      ∃ k, h.trace = healthPattern (tickerPeriod n.CheckNodeSecond) k ++ [.tick]
  | .panicked => tickerPeriod n.CheckNodeSecond ≤ 0 ∧ h.trace = [.CheckNode]

/-- The node sets for which a listener has started a health-check goroutine, in order. -/
def spawned (tr : List Act) : List Node :=
  tr.filterMap (fun a => match a with
    | .goHealth n => some n
    | _ => none)

/-- The directors handed to the servers a listener has built, in order. -/
def servers (tr : List Act) : List (Option Director) :=
  tr.filterMap (fun a => match a with
    | .newServer d => some d
    | _ => none)

/-- The director each protocol family is meant to use. -/
def directorKind : Family → DirectorKind
  | .grpc => .StreamDirector
  | .rest => .HttpDirector
  | .jsonrpc => .HttpDirector

/-- The stop call of each listener: grpcSrv.Stop() for gRPC, srv.Shutdown(ctx), with the
context done and `n` connections not idle, for REST and JSON-RPC. -/
def stopCall : Family → Nat → Act
  | .grpc, _ => .Stop
  | .rest, n => .Shutdown true n
  | .jsonrpc, n => .Shutdown true n

/-- Invariant of one listener `L` run with node set `node`. -/
structure LInv (L : Family) (node : Option Node) (l : Listener) : Prop where
  early : l.pc = .start ∨ l.pc = .listen →
    l.server = .idle ∧ l.bindFailed = false ∧ l.accepted = 0 ∧ l.active = 0
  fresh : l.pc = .start → l.health = none ∧ l.director = none ∧ l.trace = []
  listen_grpc : l.pc = .listen → L = .grpc
  bind_sel : l.bindFailed = true → l.pc = .select → ∃ e, l.server = .returned e
  shutdown_done : ∀ b n, Act.Shutdown b n ∈ l.trace → b = true
  no_graceful : Act.GracefulStop ∉ l.trace
  up_sel : l.server = .starting ∨ l.server = .serving → l.pc = .select
  grpc_up : L = .grpc → l.server ≠ .starting
  grpc_bind : L = .grpc → l.bindFailed = true → ∃ e, l.pc = .done (some e)
  done_how : ∀ r, l.pc = .done r →
    (∃ n, stopCall L n ∈ l.trace) ∨
    (∃ e, r = some e ∧ (Act.logFailed ∈ l.trace ∨ Act.netListen (some e) ∈ l.trace))
  begun : l.pc ≠ .start →
    l.director = node.map (Director.mk (directorKind L)) ∧
    l.health.map (fun h => h.node) = node ∧
    spawned l.trace = node.toList ∧
    servers l.trace = [node.map (Director.mk (directorKind L))]

/-- Invariant of every reachable state of the concurrent part of `Run`. -/
structure GInv (s : State) : Prop where
  lis : ∀ L, LInv L (s.nodes L) (s.l L)
  err_ctx : s.groupErr ≠ none → s.ctxDone = true
  done_err : ∀ L e, (s.l L).pc = .done (some e) → s.groupErr ≠ none
  ret : ∀ r, s.returned = some r → r = s.groupErr ∧ ∀ L, isDone s L = true

/-- Invariant of the states reached by schedules in which no signal arrives: the
context is done only through the errgroup, and a listener returns only after an error. -/
structure NSInv (s : State) : Prop where
  ctx_err : s.ctxDone = true → s.groupErr ≠ none
  done_err : ∀ L, isDone s L = true → s.groupErr ≠ none

/-- A schedule in which no SIGINT / SIGTERM arrives. -/
def noSignal (evs : List Ev) : Prop := Ev.signal ∉ evs

/-- Number of steps a listener goroutine at this program point may still take. -/
def Pc.rank : Pc → Nat
  | .start => 3
  | .listen => 2
  | .select => 1
  | .done _ => 0

/-- The schedule that lets the three listener goroutines run to their end and then
g.Wait() return: each enters its body, net.Listen succeeds for gRPC if still pending,
each select takes the errCh case if an error is waiting there and otherwise the
ctx.Done() case if the context is done. -/
def drain : List Ev :=
  [.task .jsonrpc .begin, .task .rest .begin, .task .grpc .begin, .task .grpc (.listen none),
   .task .jsonrpc .selectErr, .task .rest .selectErr, .task .grpc .selectErr,
   .task .jsonrpc (.selectDone none), .task .rest (.selectDone none),
   .task .grpc (.selectDone none), .wait]

/-- A reachable state in which the process is running and `Run` has not returned. -/
structure Live (s : State) : Prop where
  ginv : GInv s
  alive : s.crashed = false
  running : s.returned = none

/-- Events that inject no failure: every bind succeeds, no server fails while serving,
closing a listener succeeds. -/
def clean : Ev → Bool
  | .task _ (.listen (some _)) => false
  | .task _ (.selectDone (some _)) => false
  | .server _ (.bind (some _)) => false
  | .server _ (.serveFail _) => false
  | _ => true

/-- Invariant of the states reached by clean schedules: no server has failed, and the
errgroup holds an error only if some Shutdown was called with a connection not idle. -/
structure CInv (s : State) : Prop where
  no_fail : ∀ L e, (s.l L).server ≠ .returned e
  err_src : s.groupErr ≠ none → ∃ L b n, Act.Shutdown b n ∈ (s.l L).trace ∧ n ≠ 0

/-- A configuration with redirect disabled. -/
def noRedirect : RunEnv :=
  { enable := false, NewJSONRPCNode := (none, none), NewGRPCNode := (none, none),
    NewRESTNode := (none, none) }

/-- A schedule in which the REST address cannot be bound (error code 98), the other two
listeners come up, a signal arrives, and the REST select takes the ctx.Done() case. -/
def raceSchedule : List Ev :=
  [.task .rest .begin, .server .rest (.bind (some (.code 98))),
   .task .jsonrpc .begin, .server .jsonrpc (.bind none),
   .task .grpc .begin, .task .grpc (.listen none),
   .signal,
   .task .rest (.selectDone none), .task .jsonrpc (.selectDone none),
   .task .grpc (.selectDone none), .wait]

/-- A schedule in which the three listeners come up, a REST request is accepted and is
still in flight when the signal arrives. -/
def inflightSchedule : List Ev :=
  [.task .jsonrpc .begin, .task .rest .begin, .task .grpc .begin,
   .server .jsonrpc (.bind none), .server .rest (.bind none), .task .grpc (.listen none),
   .server .rest .accept,
   .signal,
   .task .jsonrpc (.selectDone none), .task .rest (.selectDone none),
   .task .grpc (.selectDone none), .wait]

/-- A schedule in which the three listeners come up, a REST request is served and
completes, and a signal arrives with every connection idle. -/
def quietSchedule : List Ev :=
  [.task .jsonrpc .begin, .task .rest .begin, .task .grpc .begin,
   .server .jsonrpc (.bind none), .server .rest (.bind none), .task .grpc (.listen none),
   .server .rest .accept, .server .rest .finish,
   .signal]

/-- A listener after the ctx.Done() case of its select: it logged, made the stop call
`call`, is left with `active` connections not idle, and returned `r`. -/
def Listener.stopped (l : Listener) (call : Act) (active : Nat) (r : Option Err) : Listener :=
  { l with pc := .done r, server := .closed, active := active,
           trace := l.trace ++ [.logStopping, call, .ret r] }

/-- What srv.Shutdown(ctx) returns when ctx is done, `active` connections are not idle
and closing the listener gave `lnerr`. -/
def shutdownResult (active : Nat) (lnerr : Option Err) : Option Err :=
  if active = 0 then lnerr else some .canceled

/-- A schedule that brings the gRPC listener up, accepts a request and delivers a signal. -/
def grpcUpSchedule : List Ev :=
  [.task .grpc .begin, .task .grpc (.listen none), .server .grpc .accept, .signal]

/-- A schedule in which the JSON-RPC address cannot be bound (error code 98) and the
JSON-RPC goroutine returns that error while REST and gRPC are serving. -/
def oneFailsSchedule : List Ev :=
  [.task .jsonrpc .begin, .task .rest .begin, .task .grpc .begin,
   .server .rest (.bind none), .task .grpc (.listen none),
   .server .jsonrpc (.bind (some (.code 98))), .task .jsonrpc .selectErr]

/-- The three listener goroutines enter their bodies. -/
def begins : List Ev :=
  [.task .jsonrpc .begin, .task .rest .begin, .task .grpc .begin]

/-- A schedule in which the three listeners come up, a REST connection is opened that
has sent no request yet, and the signal arrives. -/
def newConnSchedule : List Ev :=
  [.task .jsonrpc .begin, .task .rest .begin, .task .grpc .begin,
   .server .jsonrpc (.bind none), .server .rest (.bind none), .task .grpc (.listen none),
   .server .rest .connect,
   .signal,
   .task .jsonrpc (.selectDone none), .task .rest (.selectDone none),
   .task .grpc (.selectDone none), .wait]

/-- A schedule in which the JSON-RPC address cannot be bound (error code 98) and the
JSON-RPC goroutine returns that error while the REST goroutine is in its select and
the gRPC goroutine is about to call net.Listen. -/
def firstFailsSchedule : List Ev :=
  [.task .jsonrpc .begin, .task .rest .begin, .task .grpc .begin,
   .server .jsonrpc (.bind (some (.code 98))), .task .jsonrpc .selectErr]

/-- The continuation of `firstFailsSchedule` in which the REST and gRPC addresses cannot
be bound either: REST receives its error from errCh, net.Listen fails for gRPC, and
g.Wait() returns. -/
def othersFailSchedule : List Ev :=
  [.server .rest (.bind (some (.code 98))), .task .rest .selectErr,
   .task .grpc (.listen (some (.code 98))), .wait]

/-! ## Theorems -/

theorem toInt64_id (x : Int) (h1 : -(2:Int)^63 ≤ x) (h2 : x < 2^63) : toInt64 x = x := by
  unfold toInt64
  omega

theorem toInt64_lt (x : Int) : toInt64 x < 2 ^ 63 := by
  unfold toInt64
  omega

theorem toInt64_congr (x : Int) : (toInt64 x - x) % 2 ^ 64 = 0 := by
  unfold toInt64
  omega

theorem tickerPeriod_seconds (c : Int) (h1 : 1 ≤ c) (h2 : c ≤ 9223372036) :
    tickerPeriod c = c * Second ∧ 0 < tickerPeriod c := by
  unfold tickerPeriod Second
  rw [toInt64_id c (by omega) (by omega), toInt64_id _ (by omega) (by omega)]
  omega

/-- C10: the ticker period time.Duration(node.CheckNodeSecond) * time.Second, computed in
int64 nanoseconds, equals CheckNodeSecond * 10^9 and is strictly positive for
1 <= CheckNodeSecond <= 9223372036, so time.NewTicker does not panic and the
health-check goroutine reaches its loop; for CheckNodeSecond = 0 it is 0, NewTicker
panics and so does the goroutine; for CheckNodeSecond >= 9223372037 the product no
longer fits (it is at least 2^63), the computed period differs from
CheckNodeSecond * 10^9 and agrees with it modulo 2^64. -/
theorem tickerPeriod_range (c : Int) :
    (1 ≤ c → c ≤ 9223372036 →
      tickerPeriod c = c * 10 ^ 9 ∧ 0 < tickerPeriod c ∧
        NewTicker (tickerPeriod c) = some (c * 10 ^ 9) ∧
        (healthExec (Health.spawn ⟨0, c⟩) [.check, .newTicker]).pc = .waitTick) ∧
    (c = 0 → tickerPeriod c = 0 ∧ NewTicker (tickerPeriod c) = none ∧
      (healthExec (Health.spawn ⟨0, c⟩) [.check, .newTicker]).pc = .panicked) ∧
    (9223372037 ≤ c →
      2 ^ 63 ≤ c * 10 ^ 9 ∧ tickerPeriod c ≠ c * 10 ^ 9 ∧
        (tickerPeriod c - c * 10 ^ 9) % 2 ^ 64 = 0) := by
  refine ⟨?_, ?_, ?_⟩
  · intro h1 h2
    have hp : tickerPeriod c = c * 10 ^ 9 := by
      unfold tickerPeriod Second
      rw [toInt64_id c (by omega) (by omega), toInt64_id _ (by omega) (by omega)]
      norm_num
    have hn : NewTicker (tickerPeriod c) = some (c * 10 ^ 9) := by
      rw [hp]
      unfold NewTicker
      rw [if_neg (by omega)]
    refine ⟨hp, by omega, hn, ?_⟩
    simp [healthExec, healthStep, Health.spawn, hn]
  · intro h0
    subst h0
    decide
  · intro h
    have hlt := toInt64_lt (toInt64 c * Second)
    refine ⟨by omega, ?_, ?_⟩
    · unfold tickerPeriod
      omega
    · unfold tickerPeriod
      have h1 := toInt64_congr (toInt64 c * Second)
      have h2 := toInt64_congr c
      unfold Second at *
      omega

/-- C10 at concrete intervals: 5 seconds, 0 seconds and 9223372037 seconds. -/
theorem tickerPeriod_range_witness :
    (tickerPeriod 5 = 5 * 10 ^ 9 ∧ 0 < tickerPeriod 5 ∧
      NewTicker (tickerPeriod 5) = some (5 * 10 ^ 9) ∧
      (healthExec (Health.spawn ⟨0, 5⟩) [.check, .newTicker]).pc = .waitTick) ∧
    (tickerPeriod 0 = 0 ∧ NewTicker (tickerPeriod 0) = none ∧
      (healthExec (Health.spawn ⟨0, 0⟩) [.check, .newTicker]).pc = .panicked) ∧
    ((2 : Int) ^ 63 ≤ 9223372037 * 10 ^ 9 ∧ tickerPeriod 9223372037 ≠ 9223372037 * 10 ^ 9 ∧
      (tickerPeriod 9223372037 - 9223372037 * 10 ^ 9) % 2 ^ 64 = 0) :=
  ⟨(tickerPeriod_range 5).1 (by decide) (by decide),
   (tickerPeriod_range 0).2.1 rfl,
   (tickerPeriod_range 9223372037).2.2 (by decide)⟩

theorem healthInv_spawn (n : Node) : HealthInv n (Health.spawn n) := by
  simp [HealthInv, Health.spawn]

theorem healthInv_step (n : Node) (h h' : Health) (e : HEv)
    (hi : HealthInv n h) (hs : healthStep h e = some h') : HealthInv n h' := by
  obtain ⟨node, pc, trace⟩ := h
  obtain ⟨hn, hp⟩ := hi
  simp only at hn
  subst hn
  cases e <;> cases pc <;> simp [healthStep] at hs <;> simp only at hp
  · subst hs
    simp [HealthInv, hp]
  · subst hs
    obtain ⟨hpos, k, hk⟩ := hp
    refine ⟨rfl, hpos, k + 1, ?_⟩
    simp [hk, healthPattern]
  · unfold NewTicker at hs
    split at hs
    · rename_i d hd
      split at hd
      · simp at hd
      · rename_i hle
        simp only [Option.some.injEq] at hd hs
        subst hs
        refine ⟨rfl, by omega, 0, ?_⟩
        simp [hp, healthPattern, hd]
    · rename_i hd
      split at hd
      · rename_i hle
        simp only [Option.some.injEq] at hs
        subst hs
        exact ⟨rfl, hle, hp⟩
      · simp at hd
  · subst hs
    obtain ⟨hpos, k, hk⟩ := hp
    exact ⟨rfl, hpos, k, by simp [hk]⟩

theorem healthInv_exec (n : Node) (evs : List HEv) (h : Health) (hi : HealthInv n h) :
    HealthInv n (healthExec h evs) := by
  induction evs generalizing h with
  | nil => exact hi
  | cons e es ih =>
    simp only [healthExec, List.foldl_cons]
    apply ih
    cases hs : healthStep h e with
    | none => simpa using hi
    | some h' => simpa using healthInv_step n h h' e hi hs

theorem healthExec_append (h : Health) (a b : List HEv) :
    healthExec h (a ++ b) = healthExec (healthExec h a) b := by
  simp [healthExec, List.foldl_append]

theorem healthExec_schedule (n : Node) (hpos : 0 < tickerPeriod n.CheckNodeSecond) (k : Nat) :
    healthExec (Health.spawn n) (healthSchedule k) =
      { node := n, pc := .waitTick, trace := healthPattern (tickerPeriod n.CheckNodeSecond) k } := by
  induction k with
  | zero =>
    have : ¬ tickerPeriod n.CheckNodeSecond ≤ 0 := by omega
    simp [healthSchedule, healthExec, healthStep, Health.spawn, NewTicker, this, healthPattern]
  | succ k ih =>
    rw [healthSchedule, healthExec_append, ih]
    simp [healthExec, healthStep, healthPattern]

theorem pattern_extends (d : Int) (k : Nat) :
    ∃ t, healthPattern d (k + 1) = healthPattern d k ++ t := ⟨_, rfl⟩

/-- C8: in a health-check task the probe passes are: one node.CheckNode call first,
before the ticker is created, then exactly one call per tick received from the
ticker, which is created with time.Duration(node.CheckNodeSecond) * time.Second, that
is CheckNodeSecond seconds for 1 <= CheckNodeSecond <= 9223372036. Whatever the
schedule, what the task has done is an initial segment of
CheckNode, NewTicker, tick, CheckNode, tick, CheckNode, ...; and when the period is
positive, the schedule with k ticks is carried out in full: k + 1 passes, the n-th
tick followed by the (n+1)-th pass. -/
theorem health_passes (n : Node) (evs : List HEv) (k : Nat) :
    (∃ m t, healthPattern (tickerPeriod n.CheckNodeSecond) m =
        (healthExec (Health.spawn n) evs).trace ++ t) ∧
    (0 < tickerPeriod n.CheckNodeSecond →
      healthExec (Health.spawn n) (healthSchedule k) =
        { node := n, pc := .waitTick,
          trace := healthPattern (tickerPeriod n.CheckNodeSecond) k }) ∧
    (1 ≤ n.CheckNodeSecond → n.CheckNodeSecond ≤ 9223372036 →
      tickerPeriod n.CheckNodeSecond = n.CheckNodeSecond * Second ∧
        0 < tickerPeriod n.CheckNodeSecond) := by
  refine ⟨?_, fun hpos => healthExec_schedule n hpos k,
    fun h1 h2 => tickerPeriod_seconds _ h1 h2⟩
  have hi := healthInv_exec n evs (Health.spawn n) (healthInv_spawn n)
  obtain ⟨_, hp⟩ := hi
  generalize healthExec (Health.spawn n) evs = h at hp
  obtain ⟨node, pc, trace⟩ := h
  cases pc <;> simp only at hp
  · exact ⟨0, healthPattern (tickerPeriod n.CheckNodeSecond) 0, by simp [hp]⟩
  · exact ⟨0, [.NewTicker (tickerPeriod n.CheckNodeSecond)], by simp [hp, healthPattern]⟩
  · obtain ⟨_, m, hm⟩ := hp
    exact ⟨m, [], by simp [hm]⟩
  · obtain ⟨_, m, hm⟩ := hp
    exact ⟨m + 1, [.CheckNode], by simp [hm, healthPattern]⟩
  · exact ⟨0, [.NewTicker (tickerPeriod n.CheckNodeSecond)], by simp [hp.2, healthPattern]⟩

/-- C8 at a concrete node set (interval 5 seconds): after the first pass, the ticker and
one tick the task has done an initial segment of the sequence; the schedule with two
ticks is carried out in full; the period is 5 seconds. -/
theorem health_passes_witness :
    (∃ m t, healthPattern (tickerPeriod 5) m =
        (healthExec (Health.spawn ⟨0, 5⟩) [.check, .newTicker, .tick]).trace ++ t) ∧
    healthExec (Health.spawn ⟨0, 5⟩) (healthSchedule 2) =
      { node := ⟨0, 5⟩, pc := .waitTick, trace := healthPattern (tickerPeriod 5) 2 } ∧
    (tickerPeriod 5 = 5 * Second ∧ 0 < tickerPeriod 5) :=
  ⟨(health_passes ⟨0, 5⟩ [.check, .newTicker, .tick] 2).1,
   (health_passes ⟨0, 5⟩ [.check, .newTicker, .tick] 2).2.1 (by decide),
   (health_passes ⟨0, 5⟩ [.check, .newTicker, .tick] 2).2.2 (by decide) (by decide)⟩

theorem linv_init (L : Family) (node : Option Node) : LInv L node Listener.init := by
  constructor <;> simp [Listener.init]

theorem spawned_append (a b : List Act) : spawned (a ++ b) = spawned a ++ spawned b := by
  simp [spawned, List.filterMap_append]

theorem servers_append (a b : List Act) : servers (a ++ b) = servers a ++ servers b := by
  simp [servers, List.filterMap_append]

theorem linv_http (L : Family) (hL : L ≠ .grpc) (ctx : Bool) (node : Option Node)
    (l l' : Listener) (t : TaskEv)
    (h : LInv L node l) (hs : runHTTPServer ctx node l t = some l') : LInv L node l' := by
  obtain ⟨pc, server, bindFailed, active, accepted, director, health, trace⟩ := l
  obtain ⟨h1, h2, h3, h4, h5, h6, h10, h11, h12, h13, h7⟩ := h
  simp only at h1 h2 h3 h4 h5 h6 h7 h10 h11 h12 h13
  have hk : directorKind L = .HttpDirector := by cases L <;> simp_all [directorKind]
  cases t <;> cases pc <;> simp [runHTTPServer] at hs
  · subst hs
    cases node <;>
      constructor <;> simp_all [spawned, servers, setupNode, Health.spawn]
  · obtain ⟨hc, hs⟩ := hs
    subst hc
    simp only [Shutdown, if_true] at hs
    split at hs
    · simp at hs
      subst hs
      constructor <;> simp_all [spawned_append, spawned, servers_append, servers]
      left
      refine ⟨active, Or.inr (Or.inr (Or.inl ?_))⟩
      cases L <;> simp_all [stopCall]
    · simp at hs
  · cases server <;> simp at hs
    subst hs
    constructor <;> simp_all [spawned_append, spawned, servers_append, servers]

theorem linv_grpc (ctx : Bool) (node : Option Node)
    (l l' : Listener) (t : TaskEv)
    (h : LInv .grpc node l) (hs : RunGRPCServer ctx node l t = some l') : LInv .grpc node l' := by
  obtain ⟨pc, server, bindFailed, active, accepted, director, health, trace⟩ := l
  obtain ⟨h1, h2, h3, h4, h5, h6, h10, h11, h12, h13, h7⟩ := h
  simp only at h1 h2 h3 h4 h5 h6 h7 h10 h11 h12 h13
  cases t <;> cases pc <;> simp [RunGRPCServer] at hs
  · subst hs
    cases node <;>
      constructor <;> simp_all [spawned, servers, setupNode, Health.spawn, directorKind]
  · rename_i r
    cases r <;> simp at hs <;> subst hs <;>
      constructor <;> simp_all [spawned_append, spawned, servers_append, servers]
  · obtain ⟨hc, hs⟩ := hs
    subst hc hs
    constructor <;> simp_all [spawned_append, spawned, servers_append, servers]
    exact ⟨0, Or.inr (Or.inr (Or.inl rfl))⟩
  · cases server <;> simp at hs
    subst hs
    constructor <;> simp_all [spawned_append, spawned, servers_append, servers]

theorem linv_task (L : Family) (ctx : Bool) (node : Option Node) (l l' : Listener) (t : TaskEv)
    (h : LInv L node l) (hs : taskOf L ctx node l t = some l') : LInv L node l' := by
  cases L
  · exact linv_http .jsonrpc (by decide) ctx node l l' t h hs
  · exact linv_http .rest (by decide) ctx node l l' t h hs
  · exact linv_grpc ctx node l l' t h hs

theorem linv_server (L : Family) (node : Option Node) (l l' : Listener) (e : SrvEv)
    (h : LInv L node l) (hs : serverStep l e = some l') : LInv L node l' := by
  obtain ⟨pc, server, bindFailed, active, accepted, director, health, trace⟩ := l
  obtain ⟨h1, h2, h3, h4, h5, h6, h10, h11, h12, h13, h7⟩ := h
  simp only at h1 h2 h3 h4 h5 h6 h7 h10 h11 h12 h13
  cases e <;> simp [serverStep] at hs
  · rename_i r
    cases server <;> cases r <;> simp at hs <;> subst hs <;>
      constructor <;> simp_all
  · cases server <;> simp at hs
    subst hs
    constructor <;> simp_all
  · cases server <;> simp at hs
    subst hs
    constructor <;> simp_all
  · cases server <;> simp at hs
    subst hs
    constructor <;> simp_all
  · obtain ⟨hc, hs⟩ := hs
    subst hs
    have hne : ¬ (pc = .start ∨ pc = .listen) := by
      intro hp
      have := (h1 hp).2.2.2
      omega
    constructor <;> simp_all
  · obtain ⟨hc, hs⟩ := hs
    subst hs
    constructor <;> simp_all

theorem healthStep_node (h h' : Health) (e : HEv) (hs : healthStep h e = some h') :
    h'.node = h.node := by
  obtain ⟨node, pc, trace⟩ := h
  cases e <;> cases pc <;> simp [healthStep] at hs
  · subst hs; rfl
  · subst hs; rfl
  · split at hs <;> simp at hs <;> subst hs <;> rfl
  · subst hs; rfl

theorem linv_health (L : Family) (node : Option Node) (l : Listener) (hs hs' : Health)
    (e : HEv) (h : LInv L node l) (hh : l.health = some hs) (hstep : healthStep hs e = some hs') :
    LInv L node { l with health := some hs' } := by
  obtain ⟨h1, h2, h3, h4, h5, h6, h10, h11, h12, h13, h7⟩ := h
  have hn := healthStep_node hs hs' e hstep
  constructor <;> simp_all

theorem step_alive (s s' : State) (ev : Ev) (h : step s ev = some s') :
    s.crashed = false ∧ s.returned = none := by
  unfold step at h
  split at h
  · simp at h
  · rename_i hc
    simpa using hc

theorem groupReturn_l (s : State) (r : Option Err) : (groupReturn s r).l = s.l := by
  cases r <;> rfl

theorem groupReturn_nodes (s : State) (r : Option Err) : (groupReturn s r).nodes = s.nodes := by
  cases r <;> rfl

theorem groupReturn_returned (s : State) (r : Option Err) :
    (groupReturn s r).returned = s.returned := by
  cases r <;> rfl

theorem groupReturn_crashed (s : State) (r : Option Err) :
    (groupReturn s r).crashed = s.crashed := by
  cases r <;> rfl

theorem step_live (s : State) (ev : Ev) (hc : s.crashed = false) (hr : s.returned = none) :
    step s ev =
      match ev with
      | .signal => some (ListenForQuitSignals s)
      | .task L t =>
        match taskOf L s.ctxDone (s.nodes L) (s.l L) t with
        | none => none
        | some l' =>
          match l'.pc with
          | .done r => some (groupReturn { s with l := Function.update s.l L l' } r)
          | _ => some { s with l := Function.update s.l L l' }
      | .server L e =>
        match serverStep (s.l L) e with
        | none => none
        | some l' => some { s with l := Function.update s.l L l' }
      | .health L h =>
        match (s.l L).health with
        | none => none
        | some hs =>
          match healthStep hs h with
          | none => none
          | some hs' =>
            some { s with l := Function.update s.l L { s.l L with health := some hs' },
                          crashed := decide (hs'.pc = .panicked) }
      | .wait =>
        if isDone s .jsonrpc && isDone s .rest && isDone s .grpc then
          some { s with returned := some s.groupErr, ctxDone := true }
        else none := by
  unfold step
  rw [if_neg (by simp [hc, hr])]

theorem step_dead (s : State) (ev : Ev) (h : s.crashed = true ∨ s.returned ≠ none) :
    step s ev = none := by
  unfold step
  rw [if_pos]
  rcases h with h | h
  · simp [h]
  · cases hr : s.returned with
    | none => exact absurd hr h
    | some r => simp

/-- The state after listener goroutine `L` took a step. -/
theorem step_task (s s' : State) (L : Family) (t : TaskEv) (h : step s (.task L t) = some s') :
    ∃ l', taskOf L s.ctxDone (s.nodes L) (s.l L) t = some l' ∧
      ((∃ r, l'.pc = .done r ∧ s' = groupReturn { s with l := Function.update s.l L l' } r) ∨
       ((∀ r, l'.pc ≠ .done r) ∧ s' = { s with l := Function.update s.l L l' })) := by
  have ha := step_alive s s' _ h
  rw [step_live s _ ha.1 ha.2] at h
  simp only at h
  cases ht : taskOf L s.ctxDone (s.nodes L) (s.l L) t with
  | none => simp [ht] at h
  | some l' =>
    simp only [ht] at h
    refine ⟨l', rfl, ?_⟩
    cases hp : l'.pc with
    | done r =>
      simp only [hp, Option.some.injEq] at h
      exact Or.inl ⟨r, rfl, h.symm⟩
    | start => simp only [hp, Option.some.injEq] at h; exact Or.inr ⟨by simp, h.symm⟩
    | listen => simp only [hp, Option.some.injEq] at h; exact Or.inr ⟨by simp, h.symm⟩
    | select => simp only [hp, Option.some.injEq] at h; exact Or.inr ⟨by simp, h.symm⟩

theorem step_server (s s' : State) (L : Family) (e : SrvEv) (h : step s (.server L e) = some s') :
    ∃ l', serverStep (s.l L) e = some l' ∧ s' = { s with l := Function.update s.l L l' } := by
  have ha := step_alive s s' _ h
  rw [step_live s _ ha.1 ha.2] at h
  simp only at h
  cases ht : serverStep (s.l L) e with
  | none => simp [ht] at h
  | some l' =>
    simp only [ht, Option.some.injEq] at h
    exact ⟨l', rfl, h.symm⟩

theorem step_health (s s' : State) (L : Family) (e : HEv) (h : step s (.health L e) = some s') :
    ∃ hs hs', (s.l L).health = some hs ∧ healthStep hs e = some hs' ∧
      s' = { s with l := Function.update s.l L { s.l L with health := some hs' },
                    crashed := decide (hs'.pc = .panicked) } := by
  have ha := step_alive s s' _ h
  rw [step_live s _ ha.1 ha.2] at h
  simp only at h
  cases hh : (s.l L).health with
  | none => simp [hh] at h
  | some hs =>
    simp only [hh] at h
    cases ht : healthStep hs e with
    | none => simp [ht] at h
    | some hs' =>
      simp only [ht, Option.some.injEq] at h
      exact ⟨hs, hs', rfl, ht, h.symm⟩

theorem step_wait (s s' : State) (h : step s .wait = some s') :
    (∀ L, isDone s L = true) ∧ s' = { s with returned := some s.groupErr, ctxDone := true } := by
  have ha := step_alive s s' _ h
  rw [step_live s _ ha.1 ha.2] at h
  simp only at h
  split at h
  · rename_i hd
    simp only [Bool.and_eq_true] at hd
    simp only [Option.some.injEq] at h
    refine ⟨?_, h.symm⟩
    intro L
    cases L
    · exact hd.1.1
    · exact hd.1.2
    · exact hd.2
  · simp at h

theorem step_signal (s s' : State) (h : step s .signal = some s') :
    s' = ListenForQuitSignals s := by
  have ha := step_alive s s' _ h
  rw [step_live s _ ha.1 ha.2] at h
  simp only [Option.some.injEq] at h
  exact h.symm

theorem serverStep_pc (l l' : Listener) (e : SrvEv) (h : serverStep l e = some l') :
    l'.pc = l.pc ∧ l'.health = l.health ∧ l'.director = l.director ∧ l'.trace = l.trace := by
  obtain ⟨pc, server, bindFailed, active, accepted, director, health, trace⟩ := l
  cases e <;> simp [serverStep] at h
  · rename_i r
    cases server <;> cases r <;> simp at h <;> subst h <;> simp
  · cases server <;> simp at h
    subst h
    simp
  · cases server <;> simp at h
    subst h
    simp
  · cases server <;> simp at h
    subst h
    simp
  · obtain ⟨_, h⟩ := h
    subst h
    simp
  · obtain ⟨_, h⟩ := h
    subst h
    simp

theorem groupReturn_err_some (s : State) (e : Err) :
    (groupReturn s (some e)).groupErr ≠ none ∧ (groupReturn s (some e)).ctxDone = true := by
  simp only [groupReturn]
  cases s.groupErr <;> simp

theorem groupReturn_err_keep (s : State) (r : Option Err) (h : s.groupErr ≠ none) :
    (groupReturn s r).groupErr ≠ none := by
  cases r with
  | none => exact h
  | some e => exact (groupReturn_err_some s e).1

theorem groupReturn_ctx_keep (s : State) (r : Option Err) (h : s.ctxDone = true) :
    (groupReturn s r).ctxDone = true := by
  cases r with
  | none => exact h
  | some e => exact (groupReturn_err_some s e).2

theorem groupReturn_err_ctx (s : State) (r : Option Err)
    (h : s.groupErr ≠ none → s.ctxDone = true) :
    (groupReturn s r).groupErr ≠ none → (groupReturn s r).ctxDone = true := by
  cases r with
  | none => exact h
  | some e => exact fun _ => (groupReturn_err_some s e).2

theorem isDone_iff (s : State) (L : Family) : isDone s L = true ↔ ∃ r, (s.l L).pc = .done r := by
  unfold isDone
  cases (s.l L).pc <;> simp

theorem ginv_init (nodes : Family → Option Node) : GInv (RunInit nodes) := by
  constructor
  · intro L
    exact linv_init L (nodes L)
  · simp [RunInit]
  · simp [RunInit, Listener.init]
  · simp [RunInit]

theorem ginv_step (s s' : State) (ev : Ev) (hi : GInv s) (h : step s ev = some s') : GInv s' := by
  have ha := step_alive s s' ev h
  obtain ⟨h1, h2, h3, h4⟩ := hi
  cases ev with
  | signal =>
    have := step_signal s s' h
    subst this
    exact ⟨h1, fun _ => rfl, h3, h4⟩
  | task L t =>
    obtain ⟨l', ht, hcase⟩ := step_task s s' L t h
    have hl := linv_task L s.ctxDone (s.nodes L) (s.l L) l' t (h1 L) ht
    have hlis : ∀ L', LInv L' (s.nodes L') (Function.update s.l L l' L') := by
      intro L'
      by_cases hL : L' = L
      · subst hL
        simpa using hl
      · simpa [Function.update_noteq hL] using h1 L'
    rcases hcase with ⟨r, hp, hs'⟩ | ⟨hp, hs'⟩
    · subst hs'
      refine ⟨?_, ?_, ?_, ?_⟩
      · intro L'
        rw [groupReturn_l, groupReturn_nodes]
        exact hlis L'
      · exact groupReturn_err_ctx _ r h2
      · intro L' e hpc
        rw [groupReturn_l] at hpc
        simp only at hpc
        by_cases hL : L' = L
        · subst hL
          simp only [Function.update_same, hp, Pc.done.injEq] at hpc
          subst hpc
          exact (groupReturn_err_some _ e).1
        · rw [Function.update_noteq hL] at hpc
          exact groupReturn_err_keep _ r (h3 L' e hpc)
      · intro r' hr
        rw [groupReturn_returned] at hr
        simp [ha.2] at hr
    · subst hs'
      refine ⟨hlis, h2, ?_, ?_⟩
      · intro L' e hpc
        simp only at hpc
        by_cases hL : L' = L
        · subst hL
          simp only [Function.update_same] at hpc
          exact absurd hpc (hp _)
        · rw [Function.update_noteq hL] at hpc
          exact h3 L' e hpc
      · intro r' hr
        simp [ha.2] at hr
  | server L e =>
    obtain ⟨l', ht, hs'⟩ := step_server s s' L e h
    have hl := linv_server L (s.nodes L) (s.l L) l' e (h1 L) ht
    have hpc := (serverStep_pc _ _ _ ht).1
    subst hs'
    refine ⟨?_, h2, ?_, ?_⟩
    · intro L'
      by_cases hL : L' = L
      · subst hL
        simpa using hl
      · simpa [Function.update_noteq hL] using h1 L'
    · intro L' e' hp
      simp only at hp
      by_cases hL : L' = L
      · subst hL
        simp only [Function.update_same, hpc] at hp
        exact h3 _ e' hp
      · rw [Function.update_noteq hL] at hp
        exact h3 L' e' hp
    · intro r' hr
      simp [ha.2] at hr
  | health L e =>
    obtain ⟨hs, hs', hh, ht, hs''⟩ := step_health s s' L e h
    have hl := linv_health L (s.nodes L) (s.l L) hs hs' e (h1 L) hh ht
    subst hs''
    refine ⟨?_, h2, ?_, ?_⟩
    · intro L'
      by_cases hL : L' = L
      · subst hL
        simpa using hl
      · simpa [Function.update_noteq hL] using h1 L'
    · intro L' e' hp
      simp only at hp
      by_cases hL : L' = L
      · subst hL
        simp only [Function.update_same] at hp
        exact h3 _ e' hp
      · rw [Function.update_noteq hL] at hp
        exact h3 L' e' hp
    · intro r' hr
      simp [ha.2] at hr
  | wait =>
    obtain ⟨hd, hs'⟩ := step_wait s s' h
    subst hs'
    refine ⟨h1, fun _ => rfl, h3, ?_⟩
    intro r hr
    simp only [Option.some.injEq] at hr
    exact ⟨hr.symm, hd⟩

theorem exec_cons (s : State) (ev : Ev) (evs : List Ev) :
    exec s (ev :: evs) = exec ((step s ev).getD s) evs := rfl

theorem exec_append (s : State) (a b : List Ev) : exec s (a ++ b) = exec (exec s a) b := by
  simp [exec, List.foldl_append]

/-- Induction over schedules: a property of the start state kept by every step holds at the end. -/
theorem exec_induct (P : State → Prop) (Q : Ev → Prop)
    (hstep : ∀ s s' ev, Q ev → P s → step s ev = some s' → P s')
    (evs : List Ev) (hq : ∀ ev ∈ evs, Q ev) (s : State) (hs : P s) : P (exec s evs) := by
  induction evs generalizing s with
  | nil => exact hs
  | cons ev evs ih =>
    rw [exec_cons]
    apply ih (fun e he => hq e (List.mem_cons_of_mem _ he))
    cases h : step s ev with
    | none => simpa using hs
    | some s' => simpa using hstep s s' ev (hq ev (List.mem_cons_self _ _)) hs h

theorem ginv_exec (nodes : Family → Option Node) (evs : List Ev) :
    GInv (exec (RunInit nodes) evs) :=
  exec_induct GInv (fun _ => True) (fun s s' ev _ hi h => ginv_step s s' ev hi h) evs
    (fun _ _ => trivial) _ (ginv_init nodes)

theorem step_err_mono (s s' : State) (ev : Ev) (h : step s ev = some s')
    (hc : s.groupErr ≠ none) : s'.groupErr ≠ none := by
  cases ev with
  | signal => rw [step_signal s s' h]; exact hc
  | task L t =>
    obtain ⟨l', _, hcase⟩ := step_task s s' L t h
    rcases hcase with ⟨r, _, hs'⟩ | ⟨_, hs'⟩
    · rw [hs']
      exact groupReturn_err_keep _ r hc
    · rw [hs']
      exact hc
  | server L e =>
    obtain ⟨l', _, hs'⟩ := step_server s s' L e h
    rw [hs']
    exact hc
  | health L e =>
    obtain ⟨_, _, _, _, hs'⟩ := step_health s s' L e h
    rw [hs']
    exact hc
  | wait =>
    rw [(step_wait s s' h).2]
    exact hc

theorem exec_err_mono (s : State) (evs : List Ev) (hc : s.groupErr ≠ none) :
    (exec s evs).groupErr ≠ none :=
  exec_induct (fun s => s.groupErr ≠ none) (fun _ => True)
    (fun s s' ev _ hi h => step_err_mono s s' ev h hi) evs (fun _ _ => trivial) s hc

theorem task_rank (L : Family) (ctx : Bool) (node : Option Node) (l l' : Listener) (t : TaskEv)
    (hs : taskOf L ctx node l t = some l') :
    l'.pc.rank < l.pc.rank ∧ (l.bindFailed = true → l'.bindFailed = true) ∧
      (l'.pc = .done none → ctx = true) := by
  obtain ⟨pc, server, bindFailed, active, accepted, director, health, trace⟩ := l
  cases L <;> cases t <;> cases pc <;>
    simp [taskOf, RunJSONRPCServer, RunRESTServer, RunGRPCServer, runHTTPServer] at hs
  all_goals first
    | (subst hs; simp [Pc.rank])
    | (obtain ⟨hc, hs⟩ := hs
       subst hc
       first
         | (subst hs; simp [Pc.rank])
         | (split at hs <;> simp at hs; subst hs; simp [Pc.rank]))
    | (cases server <;> simp at hs; subst hs; simp [Pc.rank])
    | (rename_i r; cases r <;> simp at hs <;> subst hs <;> simp [Pc.rank])

theorem nsinv_init (nodes : Family → Option Node) : NSInv (RunInit nodes) := by
  constructor
  · simp [RunInit]
  · intro L
    simp [isDone, RunInit, Listener.init]

theorem isDone_update_ne (s : State) (L L' : Family) (l' : Listener) (c : Bool) (g : Option Err)
    (r : Option (Option Err)) (k : Bool) (hL : L' ≠ L) :
    isDone { ctxDone := c, groupErr := g, returned := r, crashed := k, nodes := s.nodes,
             l := Function.update s.l L l' } L' = isDone s L' := by
  simp [isDone, Function.update_noteq hL]

theorem isDone_groupReturn (s : State) (r : Option Err) (L : Family) :
    isDone (groupReturn s r) L = isDone s L := by
  simp [isDone, groupReturn_l]

theorem nsinv_step (s s' : State) (ev : Ev) (hev : ev ≠ .signal) (hi : NSInv s)
    (h : step s ev = some s') : NSInv s' := by
  obtain ⟨h1, h2⟩ := hi
  cases ev with
  | signal => exact absurd rfl hev
  | task L t =>
    obtain ⟨l', ht, hcase⟩ := step_task s s' L t h
    have hr := task_rank L _ _ _ _ _ ht
    rcases hcase with ⟨r, hp, hs'⟩ | ⟨hp, hs'⟩
    · subst hs'
      cases r with
      | some e =>
        exact ⟨fun _ => (groupReturn_err_some _ e).1, fun _ _ => (groupReturn_err_some _ e).1⟩
      | none =>
        have hc : s.groupErr ≠ none := h1 (hr.2.2 hp)
        exact ⟨fun _ => hc, fun _ _ => hc⟩
    · subst hs'
      refine ⟨h1, ?_⟩
      intro L' hd
      by_cases hL : L' = L
      · subst hL
        rw [isDone_iff] at hd
        obtain ⟨r, hd⟩ := hd
        simp only [Function.update_same] at hd
        exact absurd hd (hp r)
      · rw [isDone_update_ne s L L' l' _ _ _ _ hL] at hd
        exact h2 L' hd
  | server L e =>
    obtain ⟨l', ht, hs'⟩ := step_server s s' L e h
    have hpc := (serverStep_pc _ _ _ ht).1
    subst hs'
    refine ⟨h1, ?_⟩
    intro L' hd
    apply h2 L'
    by_cases hL : L' = L
    · subst hL
      simpa [isDone, hpc] using hd
    · rwa [isDone_update_ne s L L' l' _ _ _ _ hL] at hd
  | health L e =>
    obtain ⟨hs, hs', hh, ht, hs''⟩ := step_health s s' L e h
    subst hs''
    refine ⟨h1, ?_⟩
    intro L' hd
    apply h2 L'
    by_cases hL : L' = L
    · subst hL
      simpa [isDone] using hd
    · rwa [isDone_update_ne s L L' _ _ _ _ _ hL] at hd
  | wait =>
    obtain ⟨hd, hs'⟩ := step_wait s s' h
    subst hs'
    have hc := h2 .jsonrpc (hd .jsonrpc)
    exact ⟨fun _ => hc, fun _ _ => hc⟩

theorem nsinv_exec (nodes : Family → Option Node) (evs : List Ev) (hn : noSignal evs) :
    NSInv (exec (RunInit nodes) evs) :=
  exec_induct NSInv (fun ev => ev ≠ .signal) (fun s s' ev hq hi h => nsinv_step s s' ev hq hi h)
    evs (fun _ he heq => hn (heq ▸ he)) _ (nsinv_init nodes)

/-- Without a signal, `Run` never returns nil. -/
theorem noSignal_ret (nodes : Family → Option Node) (evs : List Ev) (hn : noSignal evs)
    (r : Option Err) (hr : (exec (RunInit nodes) evs).returned = some r) : r ≠ none := by
  have hg := ginv_exec nodes evs
  have hs := nsinv_exec nodes evs hn
  obtain ⟨hre, hd⟩ := hg.ret r hr
  rw [hre]
  exact hs.done_err .jsonrpc (hd .jsonrpc)

theorem enabled_begin (L : Family) (ctx : Bool) (node : Option Node) (l : Listener)
    (h : l.pc = .start) : (taskOf L ctx node l .begin).isSome = true := by
  cases L <;> simp [taskOf, RunJSONRPCServer, RunRESTServer, RunGRPCServer, runHTTPServer, h]

theorem enabled_listen (ctx : Bool) (node : Option Node) (l : Listener)
    (h : l.pc = .listen) : (taskOf .grpc ctx node l (.listen none)).isSome = true := by
  simp [taskOf, RunGRPCServer, h]

theorem enabled_selectErr (L : Family) (ctx : Bool) (node : Option Node) (l : Listener) (e : Err)
    (h : l.pc = .select) (hs : l.server = .returned e) :
    (taskOf L ctx node l .selectErr).isSome = true := by
  cases L <;> simp [taskOf, RunJSONRPCServer, RunRESTServer, RunGRPCServer, runHTTPServer, h, hs]

theorem enabled_selectDone (L : Family) (node : Option Node) (l : Listener) (x : Option Err)
    (h : l.pc = .select) : (taskOf L true node l (.selectDone x)).isSome = true := by
  cases L <;>
    simp [taskOf, RunJSONRPCServer, RunRESTServer, RunGRPCServer, runHTTPServer, h, Shutdown]
  all_goals
    split
    · simp
    · rename_i hq
      split at hq <;> simp at hq

theorem rank_le_one (p : Pc) (h : p.rank ≤ 1) (hn : p.rank ≠ 0) : p = .select := by
  cases p <;> simp [Pc.rank] at h hn ⊢

theorem rank_zero (p : Pc) (h : p.rank = 0) : ∃ r, p = .done r := by
  cases p <;> simp [Pc.rank] at h ⊢

/-- What one listener step does to a running state. -/
theorem next_task (L : Family) (t : TaskEv) (s : State) (hg : Live s) :
    Live ((step s (.task L t)).getD s) ∧
    (∀ L', (((step s (.task L t)).getD s).l L').pc.rank ≤ (s.l L').pc.rank) ∧
    (s.ctxDone = true → ((step s (.task L t)).getD s).ctxDone = true) ∧
    ((taskOf L s.ctxDone (s.nodes L) (s.l L) t).isSome = true →
      (((step s (.task L t)).getD s).l L).pc.rank < (s.l L).pc.rank) ∧
    (NSInv s → NSInv ((step s (.task L t)).getD s)) ∧
    (∀ L', (s.l L').bindFailed = true → (((step s (.task L t)).getD s).l L').bindFailed = true) := by
  cases h : step s (.task L t) with
  | none =>
    simp only [Option.getD_none]
    refine ⟨hg, fun _ => le_refl _, fun hc => hc, ?_, fun hn => hn, fun _ hb => hb⟩
    intro hen
    rw [step_live s _ hg.alive hg.running] at h
    simp only at h
    cases ht : taskOf L s.ctxDone (s.nodes L) (s.l L) t with
    | none => simp [ht] at hen
    | some l' =>
      simp only [ht] at h
      split at h <;> simp at h
  | some s' =>
    simp only [Option.getD_some]
    have hgi := ginv_step s s' _ hg.ginv h
    have hns := fun hn => nsinv_step s s' _ (by simp) hn h
    obtain ⟨l', ht, hcase⟩ := step_task s s' L t h
    have hr := task_rank L _ _ _ _ _ ht
    have hl : s'.l = Function.update s.l L l' := by
      rcases hcase with ⟨r, _, hs'⟩ | ⟨_, hs'⟩
      · rw [hs', groupReturn_l]
      · rw [hs']
    have hcr : s'.crashed = s.crashed ∧ s'.returned = s.returned := by
      rcases hcase with ⟨r, _, hs'⟩ | ⟨_, hs'⟩
      · rw [hs', groupReturn_crashed, groupReturn_returned]
        exact ⟨rfl, rfl⟩
      · rw [hs']
        exact ⟨rfl, rfl⟩
    have hctx : s.ctxDone = true → s'.ctxDone = true := by
      intro hc
      rcases hcase with ⟨r, _, hs'⟩ | ⟨_, hs'⟩
      · rw [hs']
        exact groupReturn_ctx_keep _ r hc
      · rw [hs']
        exact hc
    refine ⟨⟨hgi, hcr.1 ▸ hg.alive, hcr.2 ▸ hg.running⟩, ?_, hctx, ?_, hns, ?_⟩
    · intro L'
      rw [hl]
      by_cases hL : L' = L
      · subst hL
        simpa using le_of_lt hr.1
      · rw [Function.update_noteq hL]
    · intro _
      rw [hl]
      simpa using hr.1
    · intro L' hb
      rw [hl]
      by_cases hL : L' = L
      · subst hL
        simpa using hr.2.1 hb
      · rw [Function.update_noteq hL]
        exact hb

theorem exec_dead (s : State) (evs : List Ev) (h : s.crashed = true ∨ s.returned ≠ none) :
    exec s evs = s := by
  induction evs with
  | nil => rfl
  | cons ev evs ih => rw [exec_cons, step_dead s ev h]; exact ih

theorem rank_three (p : Pc) (h : p.rank = 3) : p = .start := by
  cases p <;> simp [Pc.rank] at h ⊢

theorem rank_two (p : Pc) (h : p.rank = 2) : p = .listen := by
  cases p <;> simp [Pc.rank] at h ⊢

theorem rank_one (p : Pc) (h : p.rank = 1) : p = .select := by
  cases p <;> simp [Pc.rank] at h ⊢

theorem rank_le_three (p : Pc) : p.rank ≤ 3 := by
  cases p <;> simp [Pc.rank]

theorem live_http_rank (L : Family) (s : State) (hg : Live s) (hL : L ≠ .grpc) :
    (s.l L).pc.rank ≠ 2 := by
  intro h
  exact hL ((hg.ginv.lis L).listen_grpc (rank_two _ h))

theorem wait_returns (s : State) (hg : Live s)
    (hd : ∀ L, (s.l L).pc.rank = 0) : ((step s .wait).getD s).returned = some s.groupErr := by
  have hdone : ∀ L, isDone s L = true := fun L => (isDone_iff s L).2 (rank_zero _ (hd L))
  rw [step_live s _ hg.alive hg.running]
  simp only [hdone, Bool.and_self, if_true, Option.getD_some]

theorem dec_step (a b k : Nat) (mono : b ≤ a) (dec : a = k + 1 → b < a) (hle : a ≤ k + 1) :
    b ≤ k := by
  by_cases h : a = k + 1
  · have := dec h
    omega
  · omega

/-- The head of the drain: afterwards every listener goroutine is in its select or done. -/
theorem drain_head (s : State) (hg : Live s) :
    ∃ s4, exec s drain = exec s4 (drain.drop 4) ∧ Live s4 ∧
      (∀ L, (s4.l L).pc.rank ≤ 1) ∧ (s.ctxDone = true → s4.ctxDone = true) ∧
      (NSInv s → NSInv s4) ∧ (∀ L, (s.l L).bindFailed = true → (s4.l L).bindFailed = true) := by
  have b0j := rank_le_three (s.l .jsonrpc).pc
  have b0r := rank_le_three (s.l .rest).pc
  have b0g := rank_le_three (s.l .grpc).pc
  simp only [drain, exec_cons, List.drop]
  obtain ⟨g1, m1, c1, d1, n1, f1⟩ := next_task .jsonrpc .begin s hg
  have e1 := fun h => d1 (enabled_begin .jsonrpc _ _ _ (rank_three _ h))
  generalize (step s (.task .jsonrpc .begin)).getD s = s1 at *
  have a1j := dec_step _ _ 2 (m1 .jsonrpc) e1 b0j
  have a1r := le_trans (m1 .rest) b0r
  have a1g := le_trans (m1 .grpc) b0g
  obtain ⟨g2, m2, c2, d2, n2, f2⟩ := next_task .rest .begin s1 g1
  have e2 := fun h => d2 (enabled_begin .rest _ _ _ (rank_three _ h))
  generalize (step s1 (.task .rest .begin)).getD s1 = s2 at *
  have a2j := le_trans (m2 .jsonrpc) a1j
  have a2r := dec_step _ _ 2 (m2 .rest) e2 a1r
  have a2g := le_trans (m2 .grpc) a1g
  obtain ⟨g3, m3, c3, d3, n3, f3⟩ := next_task .grpc .begin s2 g2
  have e3 := fun h => d3 (enabled_begin .grpc _ _ _ (rank_three _ h))
  generalize (step s2 (.task .grpc .begin)).getD s2 = s3 at *
  have a3j := le_trans (m3 .jsonrpc) a2j
  have a3r := le_trans (m3 .rest) a2r
  have a3g := dec_step _ _ 2 (m3 .grpc) e3 a2g
  obtain ⟨g4, m4, c4, d4, n4, f4⟩ := next_task .grpc (.listen none) s3 g3
  have e4 := fun h => d4 (enabled_listen _ _ _ (rank_two _ h))
  generalize (step s3 (.task .grpc (.listen none))).getD s3 = s4 at *
  have hj4 := live_http_rank .jsonrpc s4 g4 (by decide)
  have hr4 := live_http_rank .rest s4 g4 (by decide)
  have a4j : (s4.l .jsonrpc).pc.rank ≤ 1 := by
    have := le_trans (m4 .jsonrpc) a3j
    omega
  have a4r : (s4.l .rest).pc.rank ≤ 1 := by
    have := le_trans (m4 .rest) a3r
    omega
  have a4g := dec_step _ _ 1 (m4 .grpc) e4 a3g
  refine ⟨s4, rfl, g4, ?_, fun h => c4 (c3 (c2 (c1 h))), fun h => n4 (n3 (n2 (n1 h))),
    fun L h => f4 L (f3 L (f2 L (f1 L h)))⟩
  intro L
  cases L
  · exact a4j
  · exact a4r
  · exact a4g

/-- The middle of the drain: an error waiting on errCh is received. -/
theorem drain_mid (s4 : State) (g4 : Live s4) (a4 : ∀ L, (s4.l L).pc.rank ≤ 1) :
    ∃ s7, exec s4 (drain.drop 4) = exec s7 (drain.drop 7) ∧ Live s7 ∧
      (∀ L, (s7.l L).pc.rank ≤ 1) ∧ (s4.ctxDone = true → s7.ctxDone = true) ∧
      (NSInv s4 → NSInv s7) ∧
      (∀ L0, (s4.l L0).bindFailed = true → (s7.l L0).pc.rank = 0) := by
  simp only [drain, exec_cons, List.drop]
  have a4j := a4 .jsonrpc
  have a4r := a4 .rest
  have a4g := a4 .grpc
  have sel : ∀ (L : Family) (s : State), Live s → (s.l L).bindFailed = true →
      (s.l L).pc.rank = 1 →
      (taskOf L s.ctxDone (s.nodes L) (s.l L) .selectErr).isSome = true := by
    intro L s hg hb h1
    have hp := rank_one _ h1
    obtain ⟨e, he⟩ := (hg.ginv.lis L).bind_sel hb hp
    exact enabled_selectErr L _ _ _ e hp he
  obtain ⟨g5, m5, c5, d5, n5, f5⟩ := next_task .jsonrpc .selectErr s4 g4
  have e5 := fun hb h => d5 (sel .jsonrpc s4 g4 hb h)
  generalize (step s4 (.task .jsonrpc .selectErr)).getD s4 = s5 at *
  have a5j := le_trans (m5 .jsonrpc) a4j
  have a5r := le_trans (m5 .rest) a4r
  have a5g := le_trans (m5 .grpc) a4g
  have z5 : (s4.l .jsonrpc).bindFailed = true → (s5.l .jsonrpc).pc.rank ≤ 0 :=
    fun hb => dec_step _ _ 0 (m5 .jsonrpc) (e5 hb) a4j
  obtain ⟨g6, m6, c6, d6, n6, f6⟩ := next_task .rest .selectErr s5 g5
  have e6 := fun hb h => d6 (sel .rest s5 g5 hb h)
  generalize (step s5 (.task .rest .selectErr)).getD s5 = s6 at *
  have a6j := le_trans (m6 .jsonrpc) a5j
  have a6r := le_trans (m6 .rest) a5r
  have a6g := le_trans (m6 .grpc) a5g
  have z6 : (s4.l .rest).bindFailed = true → (s6.l .rest).pc.rank ≤ 0 :=
    fun hb => dec_step _ _ 0 (m6 .rest) (e6 (f5 .rest hb)) a5r
  obtain ⟨g7, m7, c7, d7, n7, f7⟩ := next_task .grpc .selectErr s6 g6
  have e7 := fun hb h => d7 (sel .grpc s6 g6 hb h)
  generalize (step s6 (.task .grpc .selectErr)).getD s6 = s7 at *
  have a7j := le_trans (m7 .jsonrpc) a6j
  have a7r := le_trans (m7 .rest) a6r
  have a7g := le_trans (m7 .grpc) a6g
  have z7 : (s4.l .grpc).bindFailed = true → (s7.l .grpc).pc.rank ≤ 0 :=
    fun hb => dec_step _ _ 0 (m7 .grpc) (e7 (f6 .grpc (f5 .grpc hb))) a6g
  refine ⟨s7, rfl, g7, ?_, fun h => c7 (c6 (c5 h)), fun h => n7 (n6 (n5 h)), ?_⟩
  · intro L
    cases L
    · exact a7j
    · exact a7r
    · exact a7g
  · intro L0 hb
    cases L0
    · exact Nat.le_zero.1 (le_trans (m7 .jsonrpc) (le_trans (m6 .jsonrpc) (z5 hb)))
    · exact Nat.le_zero.1 (le_trans (m7 .rest) (z6 hb))
    · exact Nat.le_zero.1 (z7 hb)

/-- The tail of the drain: with the context done every select takes the ctx.Done() case
and g.Wait() returns the error kept by the errgroup. -/
theorem drain_tail (s7 : State) (g7 : Live s7) (a7 : ∀ L, (s7.l L).pc.rank ≤ 1)
    (hctx7 : s7.ctxDone = true) :
    ∃ s10, Live s10 ∧ (NSInv s7 → NSInv s10) ∧
      (exec s7 (drain.drop 7)).returned = some s10.groupErr := by
  simp only [drain, exec_cons, List.drop]
  have a7j := a7 .jsonrpc
  have a7r := a7 .rest
  have a7g := a7 .grpc
  have stop : ∀ (L : Family) (s : State), s.ctxDone = true → (s.l L).pc.rank = 1 →
      (taskOf L s.ctxDone (s.nodes L) (s.l L) (.selectDone none)).isSome = true := by
    intro L s hc h1
    rw [hc]
    exact enabled_selectDone L _ _ none (rank_one _ h1)
  obtain ⟨g8, m8, c8, d8, n8, f8⟩ := next_task .jsonrpc (.selectDone none) s7 g7
  have e8 := fun h => d8 (stop .jsonrpc s7 hctx7 h)
  have hctx8 := c8 hctx7
  generalize (step s7 (.task .jsonrpc (.selectDone none))).getD s7 = s8 at *
  have a8j := dec_step _ _ 0 (m8 .jsonrpc) e8 a7j
  have a8r := le_trans (m8 .rest) a7r
  have a8g := le_trans (m8 .grpc) a7g
  obtain ⟨g9, m9, c9, d9, n9, f9⟩ := next_task .rest (.selectDone none) s8 g8
  have e9 := fun h => d9 (stop .rest s8 hctx8 h)
  have hctx9 := c9 hctx8
  generalize (step s8 (.task .rest (.selectDone none))).getD s8 = s9 at *
  have a9j := le_trans (m9 .jsonrpc) a8j
  have a9r := dec_step _ _ 0 (m9 .rest) e9 a8r
  have a9g := le_trans (m9 .grpc) a8g
  obtain ⟨g10, m10, c10, d10, n10, f10⟩ := next_task .grpc (.selectDone none) s9 g9
  have e10 := fun h => d10 (stop .grpc s9 hctx9 h)
  generalize (step s9 (.task .grpc (.selectDone none))).getD s9 = s10 at *
  have a10j := le_trans (m10 .jsonrpc) a9j
  have a10r := le_trans (m10 .rest) a9r
  have a10g := dec_step _ _ 0 (m10 .grpc) e10 a9g
  have hd : ∀ L, (s10.l L).pc.rank = 0 := by
    intro L
    cases L
    · exact Nat.le_zero.1 a10j
    · exact Nat.le_zero.1 a10r
    · exact Nat.le_zero.1 a10g
  refine ⟨s10, g10, fun h => n10 (n9 (n8 h)), ?_⟩
  have := wait_returns s10 g10 hd
  simpa [exec] using this

/-- From a running state in which the context is done, or in which (no signal having
arrived) a listener failed to bind, the drain makes `Run` return. -/
theorem drain_returns (s : State) (hg : Live s)
    (hpre : s.ctxDone = true ∨ (NSInv s ∧ ∃ L0, (s.l L0).bindFailed = true)) :
    ∃ r, (exec s drain).returned = some r := by
  obtain ⟨s4, h4, g4, a4, c4, n4, f4⟩ := drain_head s hg
  obtain ⟨s7, h7, g7, a7, c7, n7, z7⟩ := drain_mid s4 g4 a4
  have hctx7 : s7.ctxDone = true := by
    rcases hpre with hc | ⟨hn, L0, hb⟩
    · exact c7 (c4 hc)
    · have hd := (isDone_iff s7 L0).2 (rank_zero _ (z7 L0 (f4 L0 hb)))
      exact g7.ginv.err_ctx ((n7 (n4 hn)).done_err L0 hd)
  obtain ⟨s10, _, _, hr⟩ := drain_tail s7 g7 a7 hctx7
  exact ⟨_, by rw [h4, h7]; exact hr⟩

theorem Run_state (cfg : RunEnv) (evs : List Ev) (s : State)
    (h : (Run cfg evs).state = some s) :
    ∃ nodes, (RunNodes cfg).2 = .ok nodes ∧ s = exec (RunInit nodes) evs ∧
      ∀ evs', (Run cfg evs').state = some (exec (RunInit nodes) evs') ∧
        (Run cfg evs').ret = (exec (RunInit nodes) evs').returned := by
  unfold Run at h ⊢
  rcases hr : RunNodes cfg with ⟨calls, e | nodes⟩
  · simp [hr] at h
  · simp only [hr, Option.some.injEq] at h
    exact ⟨nodes, rfl, h.symm, fun evs' => ⟨rfl, rfl⟩⟩

theorem noSignal_append (a b : List Ev) (ha : noSignal a) (hb : noSignal b) :
    noSignal (a ++ b) := by
  unfold noSignal at *
  simp [List.mem_append, ha, hb]

theorem noSignal_drain : noSignal drain := by
  unfold noSignal drain
  decide

theorem live_of (nodes : Family → Option Node) (evs : List Ev)
    (hc : (exec (RunInit nodes) evs).crashed = false)
    (hr : (exec (RunInit nodes) evs).returned = none) : Live (exec (RunInit nodes) evs) :=
  ⟨ginv_exec nodes evs, hc, hr⟩

/-- C1 (amended): if a listener fails to bind its address then Run returns a non-nil
error, provided, for REST and JSON-RPC, that no interrupt/terminate signal is
delivered before that listener's goroutine has returned. Run never returns nil at the
end of such a schedule; while the process has not been ended by a panic, letting the
listener goroutines run on (the drain) makes it return a non-nil error; and once the
listener's goroutine has returned, no continuation, signals included, makes Run
return nil. -/
theorem bind_failure_returns_error (cfg : RunEnv) (evs : List Ev) (s : State) (L0 : Family)
    (hs : (Run cfg evs).state = some s) (hf : (s.l L0).bindFailed = true)
    (hn : noSignal evs ∨ L0 = .grpc) :
    (∀ r, (Run cfg evs).ret = some r → r ≠ none) ∧
    (s.crashed = false → ∃ e, (Run cfg (evs ++ drain)).ret = some (some e)) ∧
    (isDone s L0 = true → ∀ evs' r, (Run cfg (evs ++ evs')).ret = some r → r ≠ none) := by
  obtain ⟨nodes, _, hse, hrun⟩ := Run_state cfg evs s hs
  subst hse
  have hgi := ginv_exec nodes evs
  have hdone : isDone (exec (RunInit nodes) evs) L0 = true →
      (exec (RunInit nodes) evs).groupErr ≠ none := by
    intro hd
    rcases hn with hn | hn
    · exact (nsinv_exec nodes evs hn).done_err L0 hd
    · subst hn
      obtain ⟨e, he⟩ := (hgi.lis .grpc).grpc_bind rfl hf
      exact hgi.done_err .grpc e he
  have later : isDone (exec (RunInit nodes) evs) L0 = true → ∀ evs' r,
      (exec (RunInit nodes) (evs ++ evs')).returned = some r → r ≠ none := by
    intro hd evs' r hr
    rw [((ginv_exec nodes (evs ++ evs')).ret r hr).1, exec_append]
    exact exec_err_mono _ evs' (hdone hd)
  refine ⟨?_, ?_, ?_⟩
  · intro r hr
    rw [(hrun evs).2] at hr
    rw [(hgi.ret r hr).1]
    exact hdone ((hgi.ret r hr).2 L0)
  · intro hc
    rw [(hrun (evs ++ drain)).2]
    have key : ∃ r, (exec (RunInit nodes) (evs ++ drain)).returned = some r ∧ r ≠ none := by
      cases hr : (exec (RunInit nodes) evs).returned with
      | some r =>
        refine ⟨r, ?_, ?_⟩
        · rw [exec_append, exec_dead _ drain (Or.inr (by simp [hr]))]
          exact hr
        · rw [(hgi.ret r hr).1]
          exact hdone ((hgi.ret r hr).2 L0)
      | none =>
        have hl := live_of nodes evs hc hr
        rcases hn with hn | hn
        · obtain ⟨r, hr'⟩ := drain_returns _ hl (Or.inr ⟨nsinv_exec nodes evs hn, L0, hf⟩)
          rw [← exec_append] at hr'
          exact ⟨r, hr', noSignal_ret nodes _ (noSignal_append evs drain hn noSignal_drain) r hr'⟩
        · subst hn
          obtain ⟨e, he⟩ := (hgi.lis .grpc).grpc_bind rfl hf
          have hd : isDone (exec (RunInit nodes) evs) .grpc = true :=
            (isDone_iff _ _).2 ⟨_, he⟩
          obtain ⟨r, hr'⟩ := drain_returns _ hl (Or.inl (hgi.err_ctx (hdone hd)))
          rw [← exec_append] at hr'
          exact ⟨r, hr', later hd drain r hr'⟩
    obtain ⟨r, hr, hne⟩ := key
    cases r with
    | none => exact absurd rfl hne
    | some e => exact ⟨e, hr⟩
  · intro hd evs' r hr
    rw [(hrun (evs ++ evs')).2] at hr
    exact later hd evs' r hr

/-- C1 (amended) at a concrete run: the REST address cannot be bound, no signal arrives;
Run does not return nil, and after the drain it has returned an error. -/
theorem bind_failure_returns_error_witness :
    (∀ r, (Run noRedirect [.task .rest .begin, .server .rest (.bind (some (.code 98)))]).ret
        = some r → r ≠ none) ∧
    ∃ e, (Run noRedirect
      ([.task .rest .begin, .server .rest (.bind (some (.code 98)))] ++ drain)).ret
        = some (some e) :=
  have h := bind_failure_returns_error noRedirect
    [.task .rest .begin, .server .rest (.bind (some (.code 98)))]
    (exec (RunInit (fun _ => none)) [.task .rest .begin, .server .rest (.bind (some (.code 98)))])
    .rest (by rfl) (by decide) (Or.inl (by unfold noSignal; decide))
  ⟨h.1, h.2.1 (by decide)⟩

/-- C1 (as stated) fails: the REST listener cannot bind, a signal arrives before its
select runs, the select takes the ctx.Done() case, Shutdown returns nil, and so does Run. -/
theorem bind_failure_signal_race :
    ((Run noRedirect raceSchedule).state.map (fun s => (s.l .rest).bindFailed)) = some true ∧
    (Run noRedirect raceSchedule).ret = some none := by
  decide

theorem task_clean (L : Family) (ctx : Bool) (node : Option Node) (l l' : Listener) (t : TaskEv)
    (hs : taskOf L ctx node l t = some l') (hc : clean (.task L t) = true)
    (hnf : ∀ e, l.server ≠ .returned e) :
    (∀ e, l'.server ≠ .returned e) ∧ (∀ a ∈ l.trace, a ∈ l'.trace) ∧
    (∀ e, l'.pc = .done (some e) → ∃ b n, Act.Shutdown b n ∈ l'.trace ∧ n ≠ 0) := by
  obtain ⟨pc, server, bindFailed, active, accepted, director, health, trace⟩ := l
  simp only at hnf
  cases L <;> cases t <;> cases pc <;>
    simp [taskOf, RunJSONRPCServer, RunRESTServer, RunGRPCServer, runHTTPServer] at hs
  all_goals first
    | (subst hs
       refine ⟨by simp_all, fun a ha => by simp [ha], by simp⟩)
    | (obtain ⟨hctx, hs⟩ := hs
       subst hctx
       first
         | (subst hs
            refine ⟨by simp_all, fun a ha => by simp [ha], by simp⟩)
         | (rename_i lnerr
            cases lnerr with
            | some x => simp [clean] at hc
            | none =>
              simp only [Shutdown, if_true, ite_self] at hs
              split at hs
              · rename_i r hr
                simp only [Option.some.injEq] at hs
                subst hs
                refine ⟨by simp, fun a ha => by simp [ha], ?_⟩
                intro e he
                simp only [Pc.done.injEq] at he
                subst he
                split at hr
                · simp at hr
                · rename_i hne
                  exact ⟨true, active, by simp, hne⟩
              · simp at hs))
    | (cases server <;> simp at hs
       rename_i e
       exact absurd rfl (hnf e))
    | (rename_i r
       cases r with
       | some x => simp [clean] at hc
       | none =>
         simp at hs
         subst hs
         refine ⟨by simp_all, fun a ha => by simp [ha], by simp⟩)

theorem server_clean (L : Family) (l l' : Listener) (e : SrvEv)
    (hs : serverStep l e = some l') (hc : clean (.server L e) = true)
    (hnf : ∀ e, l.server ≠ .returned e) : ∀ e, l'.server ≠ .returned e := by
  obtain ⟨pc, server, bindFailed, active, accepted, director, health, trace⟩ := l
  simp only at hnf
  cases e <;> simp [serverStep] at hs
  · rename_i r
    cases r with
    | some x => simp [clean] at hc
    | none =>
      cases server <;> simp at hs
      subst hs
      simp
  · simp [clean] at hc
  · cases server <;> simp at hs
    subst hs
    simp
  · cases server <;> simp at hs
    subst hs
    simp
  · obtain ⟨_, hs⟩ := hs
    subst hs
    simpa using hnf
  · obtain ⟨_, hs⟩ := hs
    subst hs
    simpa using hnf

theorem groupReturn_err_cases (s : State) (r : Option Err)
    (h : (groupReturn s r).groupErr ≠ none) : s.groupErr ≠ none ∨ ∃ e, r = some e := by
  cases r with
  | none => exact Or.inl h
  | some e => exact Or.inr ⟨e, rfl⟩

theorem cinv_init (nodes : Family → Option Node) : CInv (RunInit nodes) := by
  constructor
  · simp [RunInit, Listener.init]
  · simp [RunInit]

theorem cinv_step (s s' : State) (ev : Ev) (hcl : clean ev = true) (hi : CInv s)
    (h : step s ev = some s') : CInv s' := by
  obtain ⟨h1, h2⟩ := hi
  cases ev with
  | signal =>
    rw [step_signal s s' h]
    exact ⟨h1, h2⟩
  | task L t =>
    obtain ⟨l', ht, hcase⟩ := step_task s s' L t h
    obtain ⟨c1, c2, c3⟩ := task_clean L _ _ _ _ _ ht hcl (h1 L)
    have hnf : ∀ L' e, (Function.update s.l L l' L').server ≠ .returned e := by
      intro L' e
      by_cases hL : L' = L
      · subst hL
        simpa using c1 e
      · rw [Function.update_noteq hL]
        exact h1 L' e
    have hold : s.groupErr ≠ none →
        ∃ L' b n, Act.Shutdown b n ∈ (Function.update s.l L l' L').trace ∧ n ≠ 0 := by
      intro hne
      obtain ⟨L', b, n, hm, hn⟩ := h2 hne
      refine ⟨L', b, n, ?_, hn⟩
      by_cases hL : L' = L
      · subst hL
        simpa using c2 _ hm
      · rw [Function.update_noteq hL]
        exact hm
    rcases hcase with ⟨r, hp, hs'⟩ | ⟨hp, hs'⟩
    · subst hs'
      refine ⟨?_, ?_⟩
      · rw [groupReturn_l]
        exact hnf
      · intro hne
        rw [groupReturn_l]
        rcases groupReturn_err_cases _ r hne with hne' | ⟨e, he⟩
        · exact hold hne'
        · subst he
          obtain ⟨b, n, hm, hn⟩ := c3 e hp
          exact ⟨L, b, n, by simpa using hm, hn⟩
    · subst hs'
      exact ⟨hnf, hold⟩
  | server L e =>
    obtain ⟨l', ht, hs'⟩ := step_server s s' L e h
    have c1 := server_clean L _ _ _ ht hcl (h1 L)
    have htr := (serverStep_pc _ _ _ ht).2.2.2
    subst hs'
    refine ⟨?_, ?_⟩
    · intro L' e'
      by_cases hL : L' = L
      · subst hL
        simpa using c1 e'
      · simp only [Function.update_noteq hL]
        exact h1 L' e'
    · intro hne
      obtain ⟨L', b, n, hm, hn⟩ := h2 hne
      refine ⟨L', b, n, ?_, hn⟩
      by_cases hL : L' = L
      · subst hL
        simpa [htr] using hm
      · simp only [Function.update_noteq hL]
        exact hm
  | health L e =>
    obtain ⟨hs, hs', hh, ht, hs''⟩ := step_health s s' L e h
    subst hs''
    refine ⟨?_, ?_⟩
    · intro L' e'
      by_cases hL : L' = L
      · subst hL
        simpa using h1 L' e'
      · simp only [Function.update_noteq hL]
        exact h1 L' e'
    · intro hne
      obtain ⟨L', b, n, hm, hn⟩ := h2 hne
      refine ⟨L', b, n, ?_, hn⟩
      by_cases hL : L' = L
      · subst hL
        simpa using hm
      · simp only [Function.update_noteq hL]
        exact hm
  | wait =>
    rw [(step_wait s s' h).2]
    exact ⟨h1, h2⟩

theorem cinv_exec (nodes : Family → Option Node) (evs : List Ev)
    (hc : ∀ ev ∈ evs, clean ev = true) : CInv (exec (RunInit nodes) evs) :=
  exec_induct CInv (fun ev => clean ev = true) (fun s s' ev hq hi h => cinv_step s s' ev hq hi h)
    evs hc _ (cinv_init nodes)

theorem step_ctx_mono (s s' : State) (ev : Ev) (h : step s ev = some s')
    (hc : s.ctxDone = true) : s'.ctxDone = true := by
  cases ev with
  | signal => rw [step_signal s s' h]; rfl
  | task L t =>
    obtain ⟨l', _, hcase⟩ := step_task s s' L t h
    rcases hcase with ⟨r, _, hs'⟩ | ⟨_, hs'⟩
    · rw [hs']
      exact groupReturn_ctx_keep _ r hc
    · rw [hs']
      exact hc
  | server L e =>
    obtain ⟨l', _, hs'⟩ := step_server s s' L e h
    rw [hs']
    exact hc
  | health L e =>
    obtain ⟨_, _, _, _, hs'⟩ := step_health s s' L e h
    rw [hs']
    exact hc
  | wait =>
    rw [(step_wait s s' h).2]

theorem exec_ctx_mono (s : State) (evs : List Ev) (hc : s.ctxDone = true) :
    (exec s evs).ctxDone = true :=
  exec_induct (fun s => s.ctxDone = true) (fun _ => True)
    (fun s s' ev _ hi h => step_ctx_mono s s' ev h hi) evs (fun _ _ => trivial) s hc

theorem exec_alive_back (s : State) (evs : List Ev) (hc : (exec s evs).crashed = false)
    (hr : (exec s evs).returned = none) : s.crashed = false ∧ s.returned = none := by
  by_cases hd : s.crashed = true ∨ s.returned ≠ none
  · rw [exec_dead s evs hd] at hc hr
    exact ⟨hc, hr⟩
  · push_neg at hd
    exact ⟨by simpa using hd.1, hd.2⟩

/-- A signal delivered to a process that is still running at the end of the schedule
has cancelled the context. -/
theorem signal_ctx (evs : List Ev) (s : State) (hsig : Ev.signal ∈ evs)
    (hc : (exec s evs).crashed = false) (hr : (exec s evs).returned = none) :
    (exec s evs).ctxDone = true := by
  induction evs generalizing s with
  | nil => simp at hsig
  | cons ev evs ih =>
    have hb := exec_alive_back s (ev :: evs) hc hr
    rw [exec_cons] at hc hr ⊢
    rcases List.mem_cons.1 hsig with he | he
    · subst he
      rw [step_live s _ hb.1 hb.2]
      exact exec_ctx_mono _ evs rfl
    · exact ih _ he hc hr

theorem clean_drain : ∀ ev ∈ drain, clean ev = true := by
  unfold drain
  decide

/-- Extent of the defect in the shutdown path: in a run in which the three listeners
bound, no server failed and the only event is an interrupt/terminate signal, Run
returns only once all three listeners have stopped, and it returns nil provided every
connection of the REST and JSON-RPC servers is idle when each calls Shutdown; and
while the process is running, once the signal has arrived, letting the listener
goroutines run (the drain) makes Run return. -/
theorem clean_shutdown_returns_nil (cfg : RunEnv) (evs : List Ev) (s : State)
    (hcl : ∀ ev ∈ evs, clean ev = true) (hs : (Run cfg evs).state = some s) :
    (∀ r, (Run cfg evs).ret = some r → (∀ L, isDone s L = true) ∧
      ((∀ L b n, Act.Shutdown b n ∈ (s.l L).trace → n = 0) → r = none)) ∧
    (Ev.signal ∈ evs → s.crashed = false →
      ∃ s' r, (Run cfg (evs ++ drain)).state = some s' ∧
        (Run cfg (evs ++ drain)).ret = some r ∧
        ((∀ L b n, Act.Shutdown b n ∈ (s'.l L).trace → n = 0) → r = none)) := by
  obtain ⟨nodes, _, hse, hrun⟩ := Run_state cfg evs s hs
  subst hse
  have safe : ∀ (es : List Ev), (∀ ev ∈ es, clean ev = true) → ∀ r,
      (exec (RunInit nodes) es).returned = some r →
      (∀ L b n, Act.Shutdown b n ∈ ((exec (RunInit nodes) es).l L).trace → n = 0) →
      r = none := by
    intro es hes r hr hno
    have hci := cinv_exec nodes es hes
    have hgi := ginv_exec nodes es
    rw [(hgi.ret r hr).1]
    by_contra hne
    obtain ⟨L, b, n, hm, hn⟩ := hci.err_src hne
    exact hn (hno L b n hm)
  refine ⟨?_, ?_⟩
  · intro r hr
    rw [(hrun evs).2] at hr
    exact ⟨((ginv_exec nodes evs).ret r hr).2, safe evs hcl r hr⟩
  · intro hsig hc
    have hcl' : ∀ ev ∈ evs ++ drain, clean ev = true := by
      intro ev hev
      rcases List.mem_append.1 hev with h | h
      · exact hcl ev h
      · exact clean_drain ev h
    have key : ∃ r, (exec (RunInit nodes) (evs ++ drain)).returned = some r := by
      rw [exec_append]
      cases hr : (exec (RunInit nodes) evs).returned with
      | some r =>
        rw [exec_dead _ drain (Or.inr (by simp [hr]))]
        exact ⟨r, hr⟩
      | none =>
        exact drain_returns _ (live_of nodes evs hc hr)
          (Or.inl (signal_ctx evs _ hsig hc hr))
    obtain ⟨r, hr⟩ := key
    exact ⟨_, r, (hrun _).1, by rw [(hrun _).2]; exact hr, safe _ hcl' r hr⟩

/-- The run of `quietSchedule` followed by the drain: every connection is idle at the
signal and Run returns nil. -/
theorem clean_shutdown_returns_nil_witness :
    (Run noRedirect (quietSchedule ++ drain)).ret = some none ∧
    ((∀ r, (Run noRedirect quietSchedule).ret = some r →
      (∀ L, isDone (exec (RunInit (fun _ => none)) quietSchedule) L = true) ∧
      ((∀ L b n, Act.Shutdown b n ∈
        ((exec (RunInit (fun _ => none)) quietSchedule).l L).trace → n = 0) → r = none)) ∧
    (Ev.signal ∈ quietSchedule → (exec (RunInit (fun _ => none)) quietSchedule).crashed = false →
      ∃ s' r, (Run noRedirect (quietSchedule ++ drain)).state = some s' ∧
        (Run noRedirect (quietSchedule ++ drain)).ret = some r ∧
        ((∀ L b n, Act.Shutdown b n ∈ (s'.l L).trace → n = 0) → r = none))) :=
  ⟨by decide,
   clean_shutdown_returns_nil noRedirect quietSchedule
    (exec (RunInit (fun _ => none)) quietSchedule) (by decide) (by rfl)⟩

/-- C2 (the code's behaviour at the failing inputs): the three listeners bound and the
only event is the signal, yet Run returns context.Canceled instead of nil, both when
a REST request is in flight at the signal and when a REST connection was just opened
and has sent no request: in each the REST listener calls srv.Shutdown(ctx) with the
cancelled context and one connection not idle. -/
theorem inflight_shutdown_returns_error :
    ((∀ ev ∈ inflightSchedule, clean ev = true) ∧
      (Run noRedirect inflightSchedule).ret = some (some .canceled) ∧
      (Run noRedirect inflightSchedule).state.map (fun s => (s.l .rest).trace) =
        some [.logStart, .newServer none, .goServe, .logStopping, .Shutdown true 1,
              .ret (some .canceled)]) ∧
    ((∀ ev ∈ newConnSchedule, clean ev = true) ∧
      (Run noRedirect newConnSchedule).ret = some (some .canceled) ∧
      (Run noRedirect newConnSchedule).state.map
          (fun s => ((s.l .rest).trace, (s.l .rest).accepted)) =
        some ([.logStart, .newServer none, .goServe, .logStopping, .Shutdown true 1,
               .ret (some .canceled)], 0)) := by
  decide

/-- The steps open to a listener goroutine blocked in its select while its server is
serving and the context is done: only the ctx.Done() case. -/
theorem select_serving (L : Family) (node : Option Node) (l : Listener) (t : TaskEv)
    (hp : l.pc = .select) (hsv : l.server = .serving) :
    taskOf L true node l t =
      match t with
      | .selectDone x =>
        match L with
        | .grpc => some (l.stopped .Stop 0 none)
        | _ => some (l.stopped (.Shutdown true l.active) l.active (shutdownResult l.active x))
      | _ => none := by
  cases L <;> cases t <;> by_cases ha : l.active = 0 <;>
    simp [taskOf, RunJSONRPCServer, RunRESTServer, RunGRPCServer, runHTTPServer, hp, hsv,
      Shutdown, ha, Listener.stopped, shutdownResult]

/-- The steps open to a listener goroutine blocked in its select with nothing waiting on
errCh, the context being done: only the ctx.Done() case. -/
theorem select_pending (L : Family) (node : Option Node) (l : Listener) (t : TaskEv)
    (hp : l.pc = .select) (hsv : ∀ e, l.server ≠ .returned e) :
    taskOf L true node l t =
      match t with
      | .selectDone x =>
        match L with
        | .grpc => some (l.stopped .Stop 0 none)
        | _ =>
          some (l.stopped (.Shutdown true l.active) l.active
            (shutdownResult l.active (if l.server = .serving then x else none)))
      | _ => none := by
  cases hs : l.server with
  | returned e => exact absurd hs (hsv e)
  | idle | starting | serving | closed =>
    cases L <;> cases t <;> by_cases ha : l.active = 0 <;>
      simp [taskOf, RunJSONRPCServer, RunRESTServer, RunGRPCServer, runHTTPServer, hp, hs,
        Shutdown, ha, Listener.stopped, shutdownResult]

theorem step_select_pending (s : State) (L : Family) (t : TaskEv)
    (hc : s.crashed = false) (hr : s.returned = none)
    (hp : (s.l L).pc = .select) (hsv : ∀ e, (s.l L).server ≠ .returned e)
    (hctx : s.ctxDone = true) :
    (∀ x, ∃ s' r, step s (.task L (.selectDone x)) = some s' ∧ (s'.l L).pc = .done r ∧
      (s'.l L).trace = (s.l L).trace ++ [.logStopping, stopCall L (s.l L).active, .ret r]) ∧
    ((∃ x, t = TaskEv.selectDone x) ∨ step s (.task L t) = none) := by
  have key := fun t => select_pending L (s.nodes L) (s.l L) t hp hsv
  refine ⟨?_, ?_⟩
  · intro x
    have h := key (.selectDone x)
    simp only at h
    obtain ⟨l', r, hl', hpc, htr⟩ : ∃ l' r,
        taskOf L true (s.nodes L) (s.l L) (.selectDone x) = some l' ∧ l'.pc = .done r ∧
        l'.trace = (s.l L).trace ++ [.logStopping, stopCall L (s.l L).active, .ret r] := by
      cases L <;> simp only at h
      · exact ⟨_, _, h, rfl, rfl⟩
      · exact ⟨_, _, h, rfl, rfl⟩
      · exact ⟨_, _, h, rfl, rfl⟩
    refine ⟨groupReturn { s with l := Function.update s.l L l' } r, r, ?_, ?_, ?_⟩
    · rw [step_live s _ hc hr]
      simp only [hctx, hl', hpc]
    · simp [groupReturn_l, hpc]
    · simp [groupReturn_l, htr]
  · have h := key t
    cases t with
    | selectDone x => exact Or.inl ⟨x, rfl⟩
    | begin =>
      right
      rw [step_live s _ hc hr]
      simp only [hctx, h]
    | listen r =>
      right
      rw [step_live s _ hc hr]
      simp only [hctx, h]
    | selectErr =>
      right
      rw [step_live s _ hc hr]
      simp only [hctx, h]

/-- The universal form of the defect behind C3: whenever a listener calls
srv.Shutdown(ctx), ctx is already done. -/
theorem shutdown_ctx_done (cfg : RunEnv) (evs : List Ev) (s : State)
    (hs : (Run cfg evs).state = some s) (L : Family) (b : Bool) (n : Nat)
    (h : Act.Shutdown b n ∈ (s.l L).trace) : b = true := by
  obtain ⟨nodes, _, hse, _⟩ := Run_state cfg evs s hs
  subst hse
  exact ((ginv_exec nodes evs).lis L).shutdown_done b n h

/-- C3 (the code's behaviour at the failing input): a REST request is in flight when
the signal arrives; the REST listener calls srv.Shutdown(ctx) with ctx already done
and one request in flight, and returns context.Canceled at once, the request still
in flight. -/
theorem shutdown_without_grace :
    (Run noRedirect inflightSchedule).state.map
        (fun s => ((s.l .rest).trace, (s.l .rest).pc, (s.l .rest).active)) =
      some ([.logStart, .newServer none, .goServe, .logStopping, .Shutdown true 1,
             .ret (some .canceled)], .done (some .canceled), 1) ∧
    Shutdown true 1 none = some (some .canceled) := by
  decide

theorem step_select_serving (s : State) (L : Family) (t : TaskEv)
    (hc : s.crashed = false) (hr : s.returned = none)
    (hp : (s.l L).pc = .select) (hsv : (s.l L).server = .serving) (hctx : s.ctxDone = true) :
    step s (.task L t) =
      match t with
      | .selectDone x =>
        match L with
        | .grpc => some { s with l := Function.update s.l L ((s.l L).stopped .Stop 0 none) }
        | _ =>
          some (groupReturn
            { s with
              l := Function.update s.l L
                    ((s.l L).stopped (.Shutdown true (s.l L).active) (s.l L).active
                      (shutdownResult (s.l L).active x)) }
            (shutdownResult (s.l L).active x))
      | _ => none := by
  rw [step_live s _ hc hr]
  simp only [hctx, select_serving L (s.nodes L) (s.l L) t hp hsv]
  cases t <;> cases L <;> simp [groupReturn, Listener.stopped]

theorem running_of_select (nodes : Family → Option Node) (evs : List Ev) (L : Family)
    (hp : ((exec (RunInit nodes) evs).l L).pc = .select) :
    (exec (RunInit nodes) evs).returned = none := by
  cases hr : (exec (RunInit nodes) evs).returned with
  | none => rfl
  | some r =>
    obtain ⟨r', hr'⟩ := (isDone_iff _ L).1 (((ginv_exec nodes evs).ret r hr).2 L)
    rw [hp] at hr'
    cases hr'

/-- C4: RunGRPCServer never calls GracefulStop; and whenever the context is done while
the gRPC server is serving (the process running), the goroutine is in its select, the
only step it can take is the ctx.Done() case, and that step logs, calls
grpcSrv.Stop() (every connection is closed at once), and returns nil, with nothing
else in between. -/
theorem grpc_stop_immediate (cfg : RunEnv) (evs : List Ev) (s : State)
    (hs : (Run cfg evs).state = some s) :
    (∀ L, Act.GracefulStop ∉ (s.l L).trace) ∧
    (s.crashed = false → (s.l .grpc).server = .serving → s.ctxDone = true →
      (s.l .grpc).pc = .select ∧
      (∀ t, (∃ x, t = TaskEv.selectDone x) ∨ step s (.task .grpc t) = none) ∧
      (∀ x, step s (.task .grpc (.selectDone x)) =
        some { s with l := Function.update s.l .grpc ((s.l .grpc).stopped .Stop 0 none) })) := by
  obtain ⟨nodes, _, hse, _⟩ := Run_state cfg evs s hs
  subst hse
  refine ⟨fun L => ((ginv_exec nodes evs).lis L).no_graceful, ?_⟩
  intro hc hsv hctx
  have hp := ((ginv_exec nodes evs).lis .grpc).up_sel (Or.inr hsv)
  have hr := running_of_select nodes evs .grpc hp
  refine ⟨hp, ?_, ?_⟩
  · intro t
    have := step_select_serving _ .grpc t hc hr hp hsv hctx
    cases t with
    | selectDone x => exact Or.inl ⟨x, rfl⟩
    | begin => exact Or.inr this
    | listen r => exact Or.inr this
    | selectErr => exact Or.inr this
  · intro x
    exact step_select_serving _ .grpc (.selectDone x) hc hr hp hsv hctx

/-- C4 at a concrete state: the gRPC listener is up with one request in flight when a
signal arrives; its next step is Stop, and it returns nil. -/
theorem grpc_stop_immediate_witness :
    ((step (exec (RunInit (fun _ => none)) grpcUpSchedule) (.task .grpc (.selectDone none))).map
      (fun s => ((s.l .grpc).pc, (s.l .grpc).active, (s.l .grpc).trace))) =
      some (.done none, 0, [.logStart, .newServer none, .netListen none, .goServe,
        .logStopping, .Stop, .ret none]) ∧
    step (exec (RunInit (fun _ => none)) grpcUpSchedule) (.task .grpc .selectErr) = none :=
  have h := (grpc_stop_immediate noRedirect grpcUpSchedule
    (exec (RunInit (fun _ => none)) grpcUpSchedule) (by rfl)).2
    (by decide) (by decide) (by decide)
  ⟨by rw [h.2.2 none]; decide, (h.2.1 .selectErr).resolve_left (by simp)⟩

/-- C5 (amended): once a listener goroutine has returned an error the shared context
is done; every other listener that is blocked in its select with no error of its own
waiting on errCh (a listener whose server is serving is in that situation) can then,
the process running, only take the ctx.Done() case, which makes its stop call
(grpcSrv.Stop for gRPC, srv.Shutdown for REST and JSON-RPC) and returns; a listener
that has returned has either made its stop call or returned an error of its own
(received from errCh, or given by net.Listen); and letting the listener goroutines
run (the drain) makes g.Wait() return, with a non-nil error. -/
theorem listener_error_cancels_others (cfg : RunEnv) (evs : List Ev) (s : State)
    (L : Family) (e : Err) (hs : (Run cfg evs).state = some s)
    (hL : (s.l L).pc = .done (some e)) :
    s.ctxDone = true ∧
    (∀ L', s.crashed = false → (s.l L').pc = .select → (∀ e', (s.l L').server ≠ .returned e') →
      (∀ t, (∃ x, t = TaskEv.selectDone x) ∨ step s (.task L' t) = none) ∧
      (∀ x, ∃ s' r, step s (.task L' (.selectDone x)) = some s' ∧ (s'.l L').pc = .done r ∧
        (s'.l L').trace =
          (s.l L').trace ++ [.logStopping, stopCall L' (s.l L').active, .ret r])) ∧
    (∀ L', (s.l L').server = .serving →
      (s.l L').pc = .select ∧ ∀ e', (s.l L').server ≠ .returned e') ∧
    (∀ L' r, (s.l L').pc = .done r →
      (∃ n, stopCall L' n ∈ (s.l L').trace) ∨
      (∃ e', r = some e' ∧
        (Act.logFailed ∈ (s.l L').trace ∨ Act.netListen (some e') ∈ (s.l L').trace))) ∧
    (s.crashed = false → ∃ e', (Run cfg (evs ++ drain)).ret = some (some e')) := by
  obtain ⟨nodes, _, hse, hrun⟩ := Run_state cfg evs s hs
  subst hse
  have hgi := ginv_exec nodes evs
  have herr := hgi.done_err L e hL
  have hctx := hgi.err_ctx herr
  refine ⟨hctx, ?_, ?_, ?_, ?_⟩
  · intro L' hc hp hsv
    have hr := running_of_select nodes evs L' hp
    exact ⟨fun t => (step_select_pending _ L' t hc hr hp hsv hctx).2,
      (step_select_pending _ L' .begin hc hr hp hsv hctx).1⟩
  · intro L' hsv
    refine ⟨(hgi.lis L').up_sel (Or.inr hsv), ?_⟩
    intro e' he'
    rw [hsv] at he'
    cases he'
  · intro L' r hp
    exact (hgi.lis L').done_how r hp
  · intro hc
    rw [(hrun (evs ++ drain)).2]
    have hfin := ginv_exec nodes (evs ++ drain)
    have key : ∃ r, (exec (RunInit nodes) (evs ++ drain)).returned = some r := by
      rw [exec_append]
      cases hr : (exec (RunInit nodes) evs).returned with
      | some r =>
        rw [exec_dead _ drain (Or.inr (by simp [hr]))]
        exact ⟨r, hr⟩
      | none =>
        exact drain_returns _ (live_of nodes evs hc hr) (Or.inl hctx)
    obtain ⟨r, hr⟩ := key
    have hne : (exec (RunInit nodes) (evs ++ drain)).groupErr ≠ none := by
      rw [exec_append]
      exact exec_err_mono _ drain herr
    cases hge : (exec (RunInit nodes) (evs ++ drain)).groupErr with
    | none => exact absurd hge hne
    | some e' =>
      refine ⟨e', ?_⟩
      rw [hr, (hfin.ret r hr).1, hge]

/-- C5 (amended) at a concrete state: JSON-RPC could not bind and returned the error
while REST and gRPC are serving; REST then takes its Shutdown branch and Run returns an
error. -/
theorem listener_error_cancels_others_witness :
    (exec (RunInit (fun _ => none)) oneFailsSchedule).ctxDone = true ∧
    (∃ s' r, step (exec (RunInit (fun _ => none)) oneFailsSchedule)
        (.task .rest (.selectDone none)) = some s' ∧ (s'.l .rest).pc = .done r ∧
      (s'.l .rest).trace = ((exec (RunInit (fun _ => none)) oneFailsSchedule).l .rest).trace ++
        [.logStopping,
         stopCall .rest ((exec (RunInit (fun _ => none)) oneFailsSchedule).l .rest).active,
         .ret r]) ∧
    ∃ e', (Run noRedirect (oneFailsSchedule ++ drain)).ret = some (some e') :=
  have h := listener_error_cancels_others noRedirect oneFailsSchedule
    (exec (RunInit (fun _ => none)) oneFailsSchedule) .jsonrpc (.code 98) (by rfl) (by decide)
  have hsrv := h.2.2.1 .rest (by decide)
  ⟨h.1, (h.2.1 .rest (by decide) hsrv.1 hsrv.2).2 none, h.2.2.2.2 (by decide)⟩

/-- C5 (as stated) fails: JSON-RPC cannot bind and its goroutine returns the error, which
cancels the context, while the REST goroutine is in its select and the gRPC goroutine
is about to call net.Listen, both still running; then the REST and gRPC addresses
cannot be bound either: REST returns the error it receives from errCh without
calling Shutdown, gRPC returns the error of net.Listen without calling Stop, and
g.Wait() returns. -/
theorem running_listener_skips_stop_branch :
    (Run noRedirect firstFailsSchedule).state.map
        (fun s => ((s.l .jsonrpc).pc, s.ctxDone, (s.l .rest).pc, (s.l .grpc).pc)) =
      some (.done (some (.code 98)), true, .select, .listen) ∧
    (Run noRedirect (firstFailsSchedule ++ othersFailSchedule)).state.map
        (fun s => ((s.l .rest).pc, (s.l .rest).trace, (s.l .grpc).pc, (s.l .grpc).trace)) =
      some (.done (some (.code 98)),
            [.logStart, .newServer none, .goServe, .logFailed, .ret (some (.code 98))],
            .done (some (.code 98)),
            [.logStart, .newServer none, .netListen (some (.code 98)),
             .ret (some (.code 98))]) ∧
    (Run noRedirect (firstFailsSchedule ++ othersFailSchedule)).ret =
      some (some (.code 98)) := by
  decide

/-- C6: a startup configuration failure is fatal. If viper.ReadInConfig, viper.Unmarshal
or cfg.ValidateBasic returns an error, the start command returns it and Run is not
called; and with redirect enabled, if a node constructor returns an error (the first
to do so in call order: NewJSONRPCNode, NewGRPCNode, NewRESTNode), Run returns that
error without entering its concurrent part: no g.Go call, no listener, no
health-check task. -/
theorem config_failure_is_fatal (c : StartEnv) (cfg : RunEnv) (evs : List Ev) (e : Err) :
    (c.ReadInConfig = some e → start c cfg evs = ([.ReadInConfig], some (some e))) ∧
    (c.ReadInConfig = none → c.Unmarshal = some e →
      start c cfg evs = ([.ReadInConfig, .DefaultConfig, .Unmarshal], some (some e))) ∧
    (c.ReadInConfig = none → c.Unmarshal = none → c.ValidateBasic = some e →
      start c cfg evs =
        ([.ReadInConfig, .DefaultConfig, .Unmarshal, .ValidateBasic], some (some e))) ∧
    (cfg.enable = true →
      (cfg.NewJSONRPCNode.2 = some e ∨
        (cfg.NewJSONRPCNode.2 = none ∧ cfg.NewGRPCNode.2 = some e) ∨
        (cfg.NewJSONRPCNode.2 = none ∧ cfg.NewGRPCNode.2 = none ∧ cfg.NewRESTNode.2 = some e)) →
      (Run cfg evs).ret = some (some e) ∧ (Run cfg evs).state = none ∧
        (∀ L, Call.Go L ∉ (Run cfg evs).calls) ∧ Call.Wait ∉ (Run cfg evs).calls) := by
  refine ⟨?_, ?_, ?_, ?_⟩
  · intro h
    simp [start, h]
  · intro h1 h2
    simp [start, h1, h2]
  · intro h1 h2 h3
    simp [start, h1, h2, h3]
  · intro hen hctor
    obtain ⟨en, ⟨nj, ej⟩, ⟨ng, eg⟩, ⟨nr, er⟩⟩ := cfg
    simp only at hen hctor
    subst hen
    rcases hctor with h | ⟨h1, h2⟩ | ⟨h1, h2, h3⟩
    · subst h
      simp [Run, RunNodes]
    · subst h1 h2
      simp [Run, RunNodes]
    · subst h1 h2 h3
      simp [Run, RunNodes]

/-- C6 at concrete inputs: ValidateBasic fails with error 1; and, redirect enabled,
NewGRPCNode fails with error 1 after NewJSONRPCNode succeeded. -/
theorem config_failure_is_fatal_witness :
    start ⟨none, none, some (.code 1)⟩ noRedirect [] =
        ([.ReadInConfig, .DefaultConfig, .Unmarshal, .ValidateBasic], some (some (.code 1))) ∧
    ((Run ⟨true, (some ⟨1, 5⟩, none), (none, some (.code 1)), (none, none)⟩ begins).ret
        = some (some (.code 1)) ∧
      (Run ⟨true, (some ⟨1, 5⟩, none), (none, some (.code 1)), (none, none)⟩ begins).state = none ∧
      (∀ L, Call.Go L ∉
        (Run ⟨true, (some ⟨1, 5⟩, none), (none, some (.code 1)), (none, none)⟩ begins).calls) ∧
      Call.Wait ∉
        (Run ⟨true, (some ⟨1, 5⟩, none), (none, some (.code 1)), (none, none)⟩ begins).calls) :=
  ⟨(config_failure_is_fatal ⟨none, none, some (.code 1)⟩ noRedirect [] (.code 1)).2.2.1
      rfl rfl rfl,
   (config_failure_is_fatal ⟨none, none, none⟩
      ⟨true, (some ⟨1, 5⟩, none), (none, some (.code 1)), (none, none)⟩ begins (.code 1)).2.2.2
      rfl (Or.inr (Or.inl ⟨rfl, rfl⟩))⟩

theorem step_task_enabled (s : State) (L : Family) (t : TaskEv)
    (hc : s.crashed = false) (hr : s.returned = none)
    (h : (taskOf L s.ctxDone (s.nodes L) (s.l L) t).isSome = true) :
    (step s (.task L t)).isSome = true := by
  rw [step_live s _ hc hr]
  simp only
  cases ht : taskOf L s.ctxDone (s.nodes L) (s.l L) t with
  | none => simp [ht] at h
  | some l' =>
    simp only
    split <;> simp

/-- No deadlock after cancellation: in a running state whose context is done, either
g.Wait() can return or some listener goroutine can take a step. -/
theorem cancelled_not_stuck (cfg : RunEnv) (evs : List Ev) (s : State)
    (hs : (Run cfg evs).state = some s) (hc : s.crashed = false) (hr : s.returned = none)
    (hctx : s.ctxDone = true) :
    (step s .wait).isSome = true ∨ ∃ L t, (step s (.task L t)).isSome = true := by
  obtain ⟨nodes, _, hse, _⟩ := Run_state cfg evs s hs
  subst hse
  have hgi := ginv_exec nodes evs
  by_cases hall : ∀ L, isDone (exec (RunInit nodes) evs) L = true
  · left
    rw [step_live _ _ hc hr]
    simp [hall]
  · right
    push_neg at hall
    obtain ⟨L, hL⟩ := hall
    refine ⟨L, ?_⟩
    cases hp : ((exec (RunInit nodes) evs).l L).pc with
    | start => exact ⟨.begin, step_task_enabled _ L _ hc hr (enabled_begin L _ _ _ hp)⟩
    | listen =>
      have hg := (hgi.lis L).listen_grpc hp
      subst hg
      exact ⟨.listen none, step_task_enabled _ _ _ hc hr (enabled_listen _ _ _ hp)⟩
    | select =>
      refine ⟨.selectDone none, step_task_enabled _ L _ hc hr ?_⟩
      rw [hctx]
      exact enabled_selectDone L _ _ none hp
    | done r =>
      exact absurd ((isDone_iff _ L).2 ⟨r, hp⟩) hL

/-- Every step of a listener goroutine brings it strictly closer to its return and
leaves the other listener goroutines where they are; a goroutine takes at most three
steps. -/
theorem task_step_decreases (s s' : State) (L : Family) (t : TaskEv)
    (h : step s (.task L t) = some s') :
    (s'.l L).pc.rank < (s.l L).pc.rank ∧ (s.l L).pc.rank ≤ 3 ∧
      ∀ L', L' ≠ L → (s'.l L').pc = (s.l L').pc := by
  obtain ⟨l', ht, hcase⟩ := step_task s s' L t h
  have hr := task_rank L _ _ _ _ _ ht
  have hl : s'.l = Function.update s.l L l' := by
    rcases hcase with ⟨r, _, hs'⟩ | ⟨_, hs'⟩
    · rw [hs', groupReturn_l]
    · rw [hs']
  refine ⟨?_, rank_le_three _, ?_⟩
  · rw [hl]
    simpa using hr.1
  · intro L' hne
    rw [hl, Function.update_noteq hne]

end CosmosFirewall
